import Mathlib

/-!
Shallow embedding of the auction concurrency and lifecycle engine of the
BotTxN-Railway repository (files `database.py`, `cache_manager.py`,
`timer_manager.py`, `commands.py`, `main.py`).

Modelling conventions:
* SQL tables are association lists `List (Nat × AuctionRow)` (the key is the
  `id` column) and plain lists for the append-only `bids` table.
* Monetary amounts (`REAL` columns, Python floats) are modelled as `ℚ`;
  instants (`datetime` / ISO strings, which compare chronologically) as `Nat`.
* Each Python function that touches the store or the in-memory maps becomes a
  pure function threading the state explicitly; `ROLLBACK` paths return the
  state that was current when the transaction began.
* The per-user `user_cache` of `cache_manager.py` is never read or written by
  any auction operation and is omitted from the cache state.
-/

namespace AuctionBot

/-- Auction status column: the code only ever writes 'active' and 'ended'. -/
inductive Status where
  | active
  | ended
deriving DecidableEq, Repr

/-- One row of the `auctions` table (columns of `database.py:_create_tables`
that the engine reads or writes; the `id` column is the association-list key). -/
structure AuctionRow where
  guild_id : Nat
  channel_id : Nat
  creator_id : Nat
  title : String
  starting_price : ℚ
  current_price : ℚ
  min_increment : ℚ
  payment_material : String
  ends_at : Nat
  status : Status
  winner_id : Option Nat
  message_id : Option Nat
  bid_count : Nat
  last_updated : Nat
deriving DecidableEq, Repr

/-- One row of the `bids` table. -/
structure BidRow where
  auction_id : Nat
  user_id : Nat
  amount : ℚ
  created_at : Nat
  is_quick_bid : Bool
deriving DecidableEq, Repr

/-- Association-list read, first matching key (SQL `SELECT ... WHERE id = ?`
with `fetchone`). -/
def alGet {α : Type} (l : List (Nat × α)) (k : Nat) : Option α :=
  (l.find? (fun p => p.1 == k)).map (·.2)

/-- Remove every entry with the given key (Python `dict.pop(k, None)`). -/
def alErase {α : Type} (l : List (Nat × α)) (k : Nat) : List (Nat × α) :=
  l.filter (fun p => p.1 != k)

/-- Store a value under a key, overwriting any previous entry
(Python `d[k] = v`). -/
def alSet {α : Type} (l : List (Nat × α)) (k : Nat) (v : α) : List (Nat × α) :=
  (k, v) :: alErase l k

/-- The durable store: the `auctions` and `bids` tables. -/
structure DBState where
  auctions : List (Nat × AuctionRow)
  bids : List BidRow
deriving DecidableEq, Repr

/-- The `id` column is a primary key: all auction ids are distinct. -/
def dbKeysNodup (db : DBState) : Prop :=
  (db.auctions.map (·.1)).Nodup

/-- `database.py:get_auction` — `SELECT * FROM auctions WHERE id = ? LIMIT 1`. -/
def dbGetAuction (db : DBState) (aid : Nat) : Option AuctionRow :=
  alGet db.auctions aid

/-- The read inside `place_bid_optimized`:
`SELECT ... FROM auctions WHERE id = ? AND status = 'active'`. -/
def dbGetActiveAuction (db : DBState) (aid : Nat) : Option AuctionRow :=
  ((db.auctions.find? (fun p => p.1 == aid && p.2.status == Status.active)).map (·.2))

/-- `UPDATE auctions SET ... WHERE id = ?`: rewrite every row with that id. -/
def dbUpdateAuction (db : DBState) (aid : Nat) (f : AuctionRow → AuctionRow) : DBState :=
  { db with auctions := db.auctions.map (fun p => if p.1 = aid then (p.1, f p.2) else p) }

/-- Ordering used by `ORDER BY created_at DESC` on the `bids` table. -/
def laterBid (a b : BidRow) : Prop := b.created_at ≤ a.created_at

instance : DecidableRel laterBid := fun _ _ => Nat.decLe _ _

instance : IsTotal BidRow laterBid :=
  ⟨fun a b => Nat.le_total b.created_at a.created_at⟩

instance : IsTrans BidRow laterBid :=
  ⟨fun _ _ _ h1 h2 => Nat.le_trans h2 h1⟩

/-- `database.py:get_auction_bids` — bids of one auction ordered by
`created_at DESC`, at most `limit` rows. -/
def dbGetAuctionBids (db : DBState) (aid limit : Nat) : List BidRow :=
  ((db.bids.filter (fun b => b.auction_id == aid)).insertionSort laterBid).take limit

/-- The previous-highest-bid lookup inside `place_bid_optimized`
(`SELECT user_id, amount FROM bids ... ORDER BY created_at DESC LIMIT 1`). -/
def dbLastBid (db : DBState) (aid : Nat) : Option BidRow :=
  (dbGetAuctionBids db aid 1).head?

/-- Business rejections returned by `place_bid_optimized` (the `error` strings
of its result dict; `belowMinimum` carries the number interpolated into
`f"Puja mínima: {min_bid}"`). -/
inductive BidError where
  | notFoundOrInactive
  | selfBid
  | expired
  | belowMinimum (minBid : ℚ)
  | internalError
deriving DecidableEq, Repr

/-- The notification dict returned by a successful `place_bid_optimized`. -/
structure BidNotif where
  previous_user_id : Option Nat
  previous_amount : ℚ
  new_amount : ℚ
  auction_id : Nat
  user_id : Nat
deriving DecidableEq, Repr

/-- `database.py:place_bid_optimized`: the atomic bid transaction.  Every
rejection path models `ROLLBACK` by returning the entry state. -/
def place_bid_optimized (db : DBState) (now aid uid : Nat) (amount : ℚ)
    (is_quick_bid : Bool) : Except BidError BidNotif × DBState :=
  match dbGetActiveAuction db aid with
  | none => (.error .notFoundOrInactive, db)
  | some a =>
    if uid = a.creator_id then (.error .selfBid, db)
    else if a.ends_at ≤ now then (.error .expired, db)
    else
      let min_bid := a.current_price + a.min_increment
      if amount < min_bid then (.error (.belowMinimum min_bid), db)
      else
        let prev := dbLastBid db aid
        let previous_user_id := prev.map (·.user_id)
        let previous_amount := match prev with
          | some b => b.amount
          | none => a.current_price
        let db1 : DBState :=
          { db with bids := db.bids ++ [⟨aid, uid, amount, now, is_quick_bid⟩] }
        let db2 := dbUpdateAuction db1 aid (fun r =>
          { r with current_price := amount,
                   bid_count := r.bid_count + 1,
                   last_updated := now })
        (.ok ⟨previous_user_id, previous_amount, amount, aid, uid⟩, db2)

/-- `database.py:end_auction` — one `UPDATE` writing status, winner and
last_updated together; the function returns `True`. -/
def db_end_auction (db : DBState) (now aid : Nat) (winner : Option Nat) : DBState :=
  dbUpdateAuction db aid (fun r =>
    { r with status := .ended, winner_id := winner, last_updated := now })

/-- Ordering used by `ORDER BY ends_at ASC` on the `auctions` table. -/
def endsEarlier (p q : Nat × AuctionRow) : Prop := p.2.ends_at ≤ q.2.ends_at

instance : DecidableRel endsEarlier := fun _ _ => Nat.decLe _ _

instance : IsTotal (Nat × AuctionRow) endsEarlier :=
  ⟨fun p q => Nat.le_total p.2.ends_at q.2.ends_at⟩

instance : IsTrans (Nat × AuctionRow) endsEarlier :=
  ⟨fun _ _ _ h1 h2 => Nat.le_trans h1 h2⟩

/-- `database.py:get_active_auctions` — active auctions of one guild, ordered
by `ends_at ASC`, `LIMIT 50`. -/
def dbGetActiveAuctions (db : DBState) (g : Nat) : List (Nat × AuctionRow) :=
  ((db.auctions.filter
      (fun p => decide (p.2.guild_id = g ∧ p.2.status = Status.active))).insertionSort
    endsEarlier).take 50

/-- `database.py:get_expired_auctions` — active rows whose `ends_at` is
not after now (ISO strings compare chronologically). -/
def dbGetExpiredAuctions (db : DBState) (now : Nat) : List (Nat × AuctionRow) :=
  db.auctions.filter (fun p => decide (p.2.status = Status.active ∧ p.2.ends_at ≤ now))

/-- `database.py:update_auction_message_id`. -/
def db_update_auction_message_id (db : DBState) (now aid mid : Nat) : DBState :=
  dbUpdateAuction db aid (fun r => { r with message_id := some mid, last_updated := now })

/-- The row inserted by `database.py:create_auction`: current price starts at
the starting price, status defaults to 'active', no winner, zero bids. -/
structure CreateData where
  guild_id : Nat
  channel_id : Nat
  creator_id : Nat
  title : String
  starting_price : ℚ
  min_increment : ℚ
  payment_material : String
  ends_at : Nat
  created_at : Nat
deriving DecidableEq, Repr

def mkAuctionRow (d : CreateData) : AuctionRow :=
  { guild_id := d.guild_id
    channel_id := d.channel_id
    creator_id := d.creator_id
    title := d.title
    starting_price := d.starting_price
    current_price := d.starting_price
    min_increment := d.min_increment
    payment_material := d.payment_material
    ends_at := d.ends_at
    status := .active
    winner_id := none
    message_id := none
    bid_count := 0
    last_updated := d.created_at }

/-- `database.py:create_auction` — `INSERT INTO auctions` with a fresh
autoincrement id. -/
def db_create_auction (db : DBState) (newId : Nat) (d : CreateData) : DBState :=
  { db with auctions := db.auctions ++ [(newId, mkAuctionRow d)] }

/-! ### Association-list lemmas -/

theorem alGet_cons {α : Type} (p : Nat × α) (t : List (Nat × α)) (k : Nat) :
    alGet (p :: t) k = if p.1 = k then some p.2 else alGet t k := by
  by_cases hp : p.1 = k
  · rw [alGet, List.find?_cons_of_pos _ (by simp [hp]), if_pos hp, Option.map_some']
  · rw [alGet, List.find?_cons_of_neg _ (by simp [hp]), if_neg hp, alGet]

theorem alErase_cons {α : Type} (p : Nat × α) (t : List (Nat × α)) (k : Nat) :
    alErase (p :: t) k = if p.1 = k then alErase t k else p :: alErase t k := by
  by_cases hp : p.1 = k <;> simp [alErase, List.filter_cons, hp]

theorem alGet_alErase_same {α : Type} (l : List (Nat × α)) (k : Nat) :
    alGet (alErase l k) k = none := by
  induction l with
  | nil => rfl
  | cons p t ih =>
    rw [alErase_cons]
    by_cases hp : p.1 = k
    · rw [if_pos hp]; exact ih
    · rw [if_neg hp, alGet_cons, if_neg hp]; exact ih

theorem alGet_alErase_ne {α : Type} (l : List (Nat × α)) (k k' : Nat)
    (h : k' ≠ k) : alGet (alErase l k) k' = alGet l k' := by
  induction l with
  | nil => rfl
  | cons p t ih =>
    rw [alErase_cons, alGet_cons]
    by_cases hp : p.1 = k
    · rw [if_pos hp, if_neg (by rw [hp]; exact fun he => h he.symm), ih]
    · rw [if_neg hp, alGet_cons]
      by_cases hq : p.1 = k'
      · rw [if_pos hq, if_pos hq]
      · rw [if_neg hq, if_neg hq, ih]

theorem alGet_alSet_same {α : Type} (l : List (Nat × α)) (k : Nat) (v : α) :
    alGet (alSet l k v) k = some v := by
  rw [alSet, alGet_cons, if_pos rfl]

theorem alGet_alSet_ne {α : Type} (l : List (Nat × α)) (k k' : Nat) (v : α)
    (h : k' ≠ k) : alGet (alSet l k v) k' = alGet l k' := by
  rw [alSet, alGet_cons, if_neg (fun he => h he.symm), alGet_alErase_ne l k k' h]

theorem alGet_eq_none_iff {α : Type} (l : List (Nat × α)) (k : Nat) :
    alGet l k = none ↔ ∀ p ∈ l, p.1 ≠ k := by
  simp only [alGet, Option.map_eq_none', List.find?_eq_none, beq_iff_eq]

theorem alGet_cons_pair {α : Type} (k1 : Nat) (v : α) (t : List (Nat × α)) (k : Nat) :
    alGet ((k1, v) :: t) k = if k1 = k then some v else alGet t k := by
  rw [alGet_cons]

/-- Reading after a `dbUpdateAuction`: the updated id is mapped through `f`,
every other id is untouched. -/
theorem alGet_update {aid k : Nat} {f : AuctionRow → AuctionRow}
    (l : List (Nat × AuctionRow)) :
    alGet (l.map (fun p => if p.1 = aid then (p.1, f p.2) else p)) k
      = if k = aid then (alGet l k).map f else alGet l k := by
  induction l with
  | nil => by_cases hk : k = aid <;> simp [alGet, hk]
  | cons p t ih =>
    rw [List.map_cons]
    by_cases hk : k = aid
    · rw [if_pos hk] at ih ⊢
      by_cases hp : p.1 = aid
      · have hpk : p.1 = k := by rw [hp, hk]
        rw [if_pos hp, alGet_cons_pair, alGet_cons, if_pos hpk, if_pos hpk,
          Option.map_some']
      · have hpk : p.1 ≠ k := fun he => hp (by rw [he, hk])
        rw [if_neg hp, alGet_cons, alGet_cons, if_neg hpk, if_neg hpk, ih]
    · rw [if_neg hk] at ih ⊢
      by_cases hp : p.1 = aid
      · have hpk : p.1 ≠ k := fun he => hk (by rw [← he, hp])
        rw [if_pos hp, alGet_cons_pair, alGet_cons, if_neg hpk, if_neg hpk, ih]
      · rw [if_neg hp, alGet_cons, alGet_cons]
        by_cases hq : p.1 = k
        · rw [if_pos hq, if_pos hq]
        · rw [if_neg hq, if_neg hq, ih]

theorem dbGetAuction_update (db : DBState) (aid k : Nat) (f : AuctionRow → AuctionRow) :
    dbGetAuction (dbUpdateAuction db aid f) k
      = if k = aid then (dbGetAuction db k).map f else dbGetAuction db k := by
  simp only [dbGetAuction, dbUpdateAuction]
  exact alGet_update db.auctions

/-- `dbUpdateAuction` does not change the id column. -/
theorem keys_dbUpdateAuction (db : DBState) (aid : Nat) (f : AuctionRow → AuctionRow) :
    (dbUpdateAuction db aid f).auctions.map (·.1) = db.auctions.map (·.1) := by
  simp only [dbUpdateAuction, List.map_map]
  induction db.auctions with
  | nil => rfl
  | cons p t ih =>
    simp only [List.map_cons] at ih ⊢
    by_cases hp : p.1 = aid
    · rw [show (((·.1) ∘ fun p => if p.1 = aid then (p.1, f p.2) else p) p) = p.1 by
        simp [hp], ih]
    · rw [show (((·.1) ∘ fun p => if p.1 = aid then (p.1, f p.2) else p) p) = p.1 by
        simp [hp], ih]

/-- With distinct ids, the active-row lookup of `place_bid_optimized` agrees
with the plain lookup when the row is active, and misses when it is not. -/
theorem findActive_of_nodup (l : List (Nat × AuctionRow)) (aid : Nat) (a : AuctionRow)
    (hnd : (l.map (·.1)).Nodup) (hget : alGet l aid = some a) :
    (l.find? (fun p => p.1 == aid && p.2.status == Status.active)).map (·.2)
      = if a.status = Status.active then some a else none := by
  induction l with
  | nil => simp [alGet] at hget
  | cons p t ih =>
    simp only [List.map_cons, List.nodup_cons] at hnd
    rw [alGet_cons] at hget
    by_cases hp : p.1 = aid
    · rw [if_pos hp] at hget
      have hpa : p.2 = a := by injection hget
      by_cases hs : a.status = Status.active
      · rw [List.find?_cons_of_pos _ (by simp [hp, hpa, hs]), if_pos hs,
          Option.map_some', hpa]
      · rw [List.find?_cons_of_neg _ (by simp [hpa, hs]), if_neg hs]
        have hnone : t.find? (fun p => p.1 == aid && p.2.status == Status.active) = none := by
          apply List.find?_eq_none.mpr
          intro q hq
          have hqa : q.1 ≠ aid := by
            intro he
            apply hnd.1
            have hm : q.1 ∈ t.map (·.1) := List.mem_map_of_mem (·.1) hq
            rwa [he, ← hp] at hm
          simp [hqa]
        rw [hnone, Option.map_none']
    · rw [if_neg hp] at hget
      rw [List.find?_cons_of_neg _ (by simp [hp])]
      exact ih hnd.2 hget

theorem dbGetActiveAuction_eq (db : DBState) (aid : Nat) (a : AuctionRow)
    (hnd : dbKeysNodup db) (hget : dbGetAuction db aid = some a) :
    dbGetActiveAuction db aid = if a.status = Status.active then some a else none :=
  findActive_of_nodup db.auctions aid a hnd hget

/-- With distinct keys, membership determines the association-list read. -/
theorem alGet_of_mem_nodup {α : Type} (l : List (Nat × α))
    (hnd : (l.map (·.1)).Nodup) (p : Nat × α) (hp : p ∈ l) :
    alGet l p.1 = some p.2 := by
  induction l with
  | nil => cases hp
  | cons q t ih =>
    simp only [List.map_cons, List.nodup_cons] at hnd
    rcases List.mem_cons.mp hp with he | ht
    · subst he
      rw [alGet_cons, if_pos rfl]
    · rw [alGet_cons]
      by_cases hq : q.1 = p.1
      · exact absurd (hq ▸ List.mem_map_of_mem (·.1) ht) hnd.1
      · rw [if_neg hq]
        exact ih hnd.2 ht

/-- A successful association-list read comes from a member of the list. -/
theorem mem_of_alGet {α : Type} (l : List (Nat × α)) (k : Nat) (v : α)
    (h : alGet l k = some v) : (k, v) ∈ l := by
  unfold alGet at h
  cases hf : l.find? (fun p => p.1 == k) with
  | none => rw [hf] at h; cases h
  | some p =>
    rw [hf, Option.map_some'] at h
    have hk : p.1 = k := by
      have := List.find?_some hf
      simpa using this
    have hv : p.2 = v := by injection h
    have : p = (k, v) := by
      cases p; simp_all
    exact this ▸ List.mem_of_find?_eq_some hf

/-- A hit in the left list survives appending on the right. -/
theorem alGet_append_of_some {α : Type} (l l' : List (Nat × α)) (k : Nat) (v : α)
    (h : alGet l k = some v) : alGet (l ++ l') k = some v := by
  induction l with
  | nil => simp [alGet, List.find?] at h
  | cons p t ih =>
    rw [alGet_cons] at h
    rw [List.cons_append, alGet_cons]
    by_cases hp : p.1 = k
    · rwa [if_pos hp] at h ⊢
    · rw [if_neg hp] at h ⊢
      exact ih h

/-- If the active lookup succeeds then, with distinct ids, the row is the one
the plain lookup returns, and it is active. -/
theorem dbGetActiveAuction_some (db : DBState) (aid : Nat) (a : AuctionRow)
    (hnd : dbKeysNodup db) (h : dbGetActiveAuction db aid = some a) :
    dbGetAuction db aid = some a ∧ a.status = Status.active := by
  unfold dbGetActiveAuction at h
  obtain ⟨p, hfind, hpa⟩ : ∃ p, db.auctions.find?
      (fun p => p.1 == aid && p.2.status == Status.active) = some p ∧ p.2 = a := by
    cases hf : db.auctions.find? (fun p => p.1 == aid && p.2.status == Status.active) with
    | none => rw [hf] at h; cases h
    | some p => rw [hf, Option.map_some'] at h; exact ⟨p, rfl, by injection h⟩
  have hpred := List.find?_some hfind
  simp only [Bool.and_eq_true, beq_iff_eq] at hpred
  have hmem := List.mem_of_find?_eq_some hfind
  have := alGet_of_mem_nodup db.auctions hnd p hmem
  rw [hpred.1, hpa] at this
  exact ⟨this, hpa ▸ hpred.2⟩

/-! ### Equations for the branches of `place_bid_optimized` -/

theorem place_bid_notFound_eq (db : DBState) (now aid uid : Nat) (amount : ℚ)
    (qk : Bool) (hact : dbGetActiveAuction db aid = none) :
    place_bid_optimized db now aid uid amount qk = (.error .notFoundOrInactive, db) := by
  unfold place_bid_optimized
  rw [hact]

theorem place_bid_selfBid_eq (db : DBState) (now aid uid : Nat) (amount : ℚ)
    (qk : Bool) (a : AuctionRow) (hact : dbGetActiveAuction db aid = some a)
    (h1 : uid = a.creator_id) :
    place_bid_optimized db now aid uid amount qk = (.error .selfBid, db) := by
  unfold place_bid_optimized
  rw [hact]
  simp only [if_pos h1]

theorem place_bid_expired_eq (db : DBState) (now aid uid : Nat) (amount : ℚ)
    (qk : Bool) (a : AuctionRow) (hact : dbGetActiveAuction db aid = some a)
    (h1 : ¬ uid = a.creator_id) (h2 : a.ends_at ≤ now) :
    place_bid_optimized db now aid uid amount qk = (.error .expired, db) := by
  unfold place_bid_optimized
  rw [hact]
  simp only [if_neg h1, if_pos h2]

theorem place_bid_below_eq (db : DBState) (now aid uid : Nat) (amount : ℚ)
    (qk : Bool) (a : AuctionRow) (hact : dbGetActiveAuction db aid = some a)
    (h1 : ¬ uid = a.creator_id) (h2 : ¬ a.ends_at ≤ now)
    (h3 : amount < a.current_price + a.min_increment) :
    place_bid_optimized db now aid uid amount qk
      = (.error (.belowMinimum (a.current_price + a.min_increment)), db) := by
  unfold place_bid_optimized
  rw [hact]
  simp only [if_neg h1, if_neg h2, if_pos h3]

/-- The committed state of a successful bid: the inserted row and the auction
update of `place_bid_optimized`. -/
def commitBid (db : DBState) (now aid uid : Nat) (amount : ℚ) (qk : Bool) : DBState :=
  dbUpdateAuction { db with bids := db.bids ++ [⟨aid, uid, amount, now, qk⟩] } aid
    (fun r => { r with current_price := amount,
                       bid_count := r.bid_count + 1,
                       last_updated := now })

theorem place_bid_success_eq (db : DBState) (now aid uid : Nat) (amount : ℚ)
    (qk : Bool) (a : AuctionRow) (hact : dbGetActiveAuction db aid = some a)
    (h1 : ¬ uid = a.creator_id) (h2 : ¬ a.ends_at ≤ now)
    (h3 : ¬ amount < a.current_price + a.min_increment) :
    place_bid_optimized db now aid uid amount qk
      = (.ok ⟨(dbLastBid db aid).map (·.user_id),
              (match dbLastBid db aid with
                | some b => b.amount
                | none => a.current_price), amount, aid, uid⟩,
         commitBid db now aid uid amount qk) := by
  unfold place_bid_optimized commitBid
  rw [hact]
  dsimp only
  rw [if_neg h1, if_neg h2, if_neg h3]

/-- Inversion: every accepted bid passed all four checks and committed
exactly the insert plus the auction update. -/
theorem place_bid_ok_inv (db : DBState) (now aid uid : Nat) (amount : ℚ)
    (qk : Bool) (info : BidNotif)
    (h : (place_bid_optimized db now aid uid amount qk).1 = .ok info) :
    ∃ a, dbGetActiveAuction db aid = some a ∧ ¬ uid = a.creator_id
      ∧ ¬ a.ends_at ≤ now ∧ ¬ amount < a.current_price + a.min_increment
      ∧ (place_bid_optimized db now aid uid amount qk).2
          = commitBid db now aid uid amount qk := by
  cases hact : dbGetActiveAuction db aid with
  | none => rw [place_bid_notFound_eq db now aid uid amount qk hact] at h; cases h
  | some a =>
    by_cases h1 : uid = a.creator_id
    · rw [place_bid_selfBid_eq db now aid uid amount qk a hact h1] at h; cases h
    · by_cases h2 : a.ends_at ≤ now
      · rw [place_bid_expired_eq db now aid uid amount qk a hact h1 h2] at h; cases h
      · by_cases h3 : amount < a.current_price + a.min_increment
        · rw [place_bid_below_eq db now aid uid amount qk a hact h1 h2 h3] at h; cases h
        · exact ⟨a, rfl, h1, h2, h3, by
            rw [place_bid_success_eq db now aid uid amount qk a hact h1 h2 h3]⟩

/-- Every rejected bid leaves the store exactly as it was (`ROLLBACK`). -/
theorem place_bid_error_frame (db : DBState) (now aid uid : Nat) (amount : ℚ)
    (qk : Bool) (e : BidError)
    (h : (place_bid_optimized db now aid uid amount qk).1 = .error e) :
    (place_bid_optimized db now aid uid amount qk).2 = db := by
  cases hact : dbGetActiveAuction db aid with
  | none => rw [place_bid_notFound_eq db now aid uid amount qk hact]
  | some a =>
    by_cases h1 : uid = a.creator_id
    · rw [place_bid_selfBid_eq db now aid uid amount qk a hact h1]
    · by_cases h2 : a.ends_at ≤ now
      · rw [place_bid_expired_eq db now aid uid amount qk a hact h1 h2]
      · by_cases h3 : amount < a.current_price + a.min_increment
        · rw [place_bid_below_eq db now aid uid amount qk a hact h1 h2 h3]
        · rw [place_bid_success_eq db now aid uid amount qk a hact h1 h2 h3] at h
          exact nomatch h

/-! ## Claim C1 -/

/-- C1: for every auction in a valid active state and every bid request whose
amount is strictly below the freshly-read current price plus minimum
increment, `place_bid_optimized` rejects with the below-minimum error whose
payload is exactly that freshly-computed minimum, and the store is unchanged
(no bid row is inserted). -/
theorem placeBid_belowMinimum_fresh_rejection
    (db : DBState) (now aid uid : Nat) (amount : ℚ) (qk : Bool) (a : AuctionRow)
    (hact : dbGetActiveAuction db aid = some a)
    (hself : uid ≠ a.creator_id) (htime : now < a.ends_at)
    (hlow : amount < a.current_price + a.min_increment) :
    place_bid_optimized db now aid uid amount qk
      = (.error (.belowMinimum (a.current_price + a.min_increment)), db) :=
  place_bid_below_eq db now aid uid amount qk a hact hself (not_le.mpr htime) hlow

def rowA : AuctionRow :=
  ⟨10, 11, 2, "item", 100, 100, 10, "diamonds", 1000, .active, none, none, 0, 0⟩

def dbA : DBState := ⟨[(1, rowA)], []⟩

/-- C1 witness: auction at price 100 with increment 10; a bid of 105 by user 3
at time 5 is rejected with minimum 110 and the store is unchanged. -/
theorem placeBid_belowMinimum_fresh_rejection_witness :
    dbGetActiveAuction dbA 1 = some rowA
    ∧ (3 : Nat) ≠ rowA.creator_id
    ∧ (5 : Nat) < rowA.ends_at
    ∧ (105 : ℚ) < rowA.current_price + rowA.min_increment
    ∧ place_bid_optimized dbA 5 1 3 105 false
        = (.error (.belowMinimum (rowA.current_price + rowA.min_increment)), dbA) := by
  refine ⟨rfl, by decide, by decide, by norm_num [rowA], ?_⟩
  exact placeBid_belowMinimum_fresh_rejection dbA 5 1 3 105 false rowA rfl
    (by decide) (by decide) (by norm_num [rowA])

/-! ## Claim C2 -/

def rowB : AuctionRow :=
  ⟨10, 11, 7, "item", 100, 100, 10, "diamonds", 1000, .ended, none, none, 0, 0⟩

def dbB : DBState := ⟨[(1, rowB)], []⟩

/-- C2 counterexample: user 7 owns auction 1, which has ended.  User 7's bid
on it is rejected, but with the not-found/inactive error, not the self-bid
error — so "such a request is always rejected with a SelfBid rejection" fails
on ended auctions. -/
theorem selfBid_on_ended_auction_not_selfBid :
    dbGetAuction dbB 1 = some rowB
    ∧ rowB.creator_id = 7
    ∧ place_bid_optimized dbB 5 1 7 1000 false = (.error .notFoundOrInactive, dbB)
    ∧ BidError.notFoundOrInactive ≠ BidError.selfBid := by
  refine ⟨rfl, rfl, ?_, by decide⟩
  exact place_bid_notFound_eq dbB 5 1 7 1000 false rfl

/-- C2 (amended): a bid by the auction's owner is never accepted and leaves
the store unchanged; when the auction is still active the rejection is the
self-bid error (when it is not active, the code rejects it earlier as
not-found/inactive). -/
theorem placeBid_never_accepts_self_bid
    (db : DBState) (now aid uid : Nat) (amount : ℚ) (qk : Bool) (a : AuctionRow)
    (hnd : dbKeysNodup db) (hget : dbGetAuction db aid = some a)
    (hown : a.creator_id = uid) :
    (place_bid_optimized db now aid uid amount qk).2 = db
    ∧ (∀ info, (place_bid_optimized db now aid uid amount qk).1 ≠ .ok info)
    ∧ (a.status = Status.active →
        (place_bid_optimized db now aid uid amount qk).1 = .error .selfBid) := by
  have hactive := dbGetActiveAuction_eq db aid a hnd hget
  by_cases hs : a.status = Status.active
  · rw [if_pos hs] at hactive
    rw [place_bid_selfBid_eq db now aid uid amount qk a hactive hown.symm]
    refine ⟨rfl, ?_, fun _ => rfl⟩
    intro info h
    simp at h
  · rw [if_neg hs] at hactive
    rw [place_bid_notFound_eq db now aid uid amount qk hactive]
    refine ⟨rfl, ?_, fun h => absurd h hs⟩
    intro info h
    simp at h

def rowB2 : AuctionRow :=
  ⟨10, 11, 7, "item", 100, 100, 10, "diamonds", 1000, .active, none, none, 0, 0⟩

def dbB2 : DBState := ⟨[(1, rowB2)], []⟩

/-- C2 witness: owner 7 bidding on their own active auction is rejected with
the self-bid error and the store is unchanged. -/
theorem placeBid_never_accepts_self_bid_witness :
    dbKeysNodup dbB2
    ∧ dbGetAuction dbB2 1 = some rowB2
    ∧ rowB2.creator_id = 7
    ∧ ((place_bid_optimized dbB2 5 1 7 500 false).2 = dbB2
      ∧ (∀ info, (place_bid_optimized dbB2 5 1 7 500 false).1 ≠ .ok info)
      ∧ (rowB2.status = Status.active →
          (place_bid_optimized dbB2 5 1 7 500 false).1 = .error .selfBid)) := by
  have hnd : dbKeysNodup dbB2 := by unfold dbKeysNodup dbB2; decide
  exact ⟨hnd, rfl, rfl,
    placeBid_never_accepts_self_bid dbB2 5 1 7 500 false rowB2 hnd rfl rfl⟩

/-! ## Claim C3 -/

/-- C3: `place_bid_optimized` is atomic.  On failure the auctions and bids
tables are exactly as before; on success the four effects happen together:
the bid row is appended, the auction's current price becomes the bid amount,
its bid count goes up by one and its last-updated time becomes now — and
every other auction is untouched. -/
theorem placeBid_atomicity
    (db : DBState) (now aid uid : Nat) (amount : ℚ) (qk : Bool)
    (hnd : dbKeysNodup db) :
    (∀ e, (place_bid_optimized db now aid uid amount qk).1 = .error e →
        (place_bid_optimized db now aid uid amount qk).2 = db)
    ∧ (∀ info, (place_bid_optimized db now aid uid amount qk).1 = .ok info →
        ∃ a, dbGetAuction db aid = some a ∧ a.status = Status.active
          ∧ (place_bid_optimized db now aid uid amount qk).2.bids
              = db.bids ++ [⟨aid, uid, amount, now, qk⟩]
          ∧ dbGetAuction (place_bid_optimized db now aid uid amount qk).2 aid
              = some { a with current_price := amount,
                              bid_count := a.bid_count + 1,
                              last_updated := now }
          ∧ ∀ k, k ≠ aid →
              dbGetAuction (place_bid_optimized db now aid uid amount qk).2 k
                = dbGetAuction db k) := by
  constructor
  · exact fun e he => place_bid_error_frame db now aid uid amount qk e he
  · intro info hok
    obtain ⟨a, hact, h1, h2, h3, hst⟩ :=
      place_bid_ok_inv db now aid uid amount qk info hok
    obtain ⟨hget, hsact⟩ := dbGetActiveAuction_some db aid a hnd hact
    refine ⟨a, hget, hsact, ?_, ?_, ?_⟩
    · rw [hst]; rfl
    · rw [hst]
      unfold commitBid
      rw [dbGetAuction_update, if_pos rfl]
      have hget1 : dbGetAuction
          { db with bids := db.bids ++ [⟨aid, uid, amount, now, qk⟩] } aid
            = some a := hget
      rw [hget1, Option.map_some']
    · intro k hk
      rw [hst]
      unfold commitBid
      rw [dbGetAuction_update, if_neg hk]
      rfl

def rowC : AuctionRow :=
  ⟨10, 11, 2, "item", 100, 100, 10, "diamonds", 1000, .active, none, none, 0, 0⟩

def dbC : DBState := ⟨[(1, rowC)], []⟩

/-- C3 witness: atomicity instantiated at a concrete store and bid request. -/
theorem placeBid_atomicity_witness :
    dbKeysNodup dbC
    ∧ ((∀ e, (place_bid_optimized dbC 5 1 3 120 false).1 = .error e →
          (place_bid_optimized dbC 5 1 3 120 false).2 = dbC)
      ∧ (∀ info, (place_bid_optimized dbC 5 1 3 120 false).1 = .ok info →
          ∃ a, dbGetAuction dbC 1 = some a ∧ a.status = Status.active
            ∧ (place_bid_optimized dbC 5 1 3 120 false).2.bids
                = dbC.bids ++ [⟨1, 3, 120, 5, false⟩]
            ∧ dbGetAuction (place_bid_optimized dbC 5 1 3 120 false).2 1
                = some { a with current_price := 120,
                                bid_count := a.bid_count + 1,
                                last_updated := 5 }
            ∧ ∀ k, k ≠ 1 →
                dbGetAuction (place_bid_optimized dbC 5 1 3 120 false).2 k
                  = dbGetAuction dbC k)) := by
  have hnd : dbKeysNodup dbC := by unfold dbKeysNodup dbC; decide
  exact ⟨hnd, placeBid_atomicity dbC 5 1 3 120 false hnd⟩

/-! ## Claim C4 -/

/-- The operations of the engine that write to the `auctions` table:
creation (`commands.py:create_auction` feeding `database.py:create_auction`),
bidding, closing (`database.py:end_auction`), and the message-id update. -/
inductive DbOp where
  | create (newId : Nat) (d : CreateData)
  | placeBid (now aid uid : Nat) (amount : ℚ) (is_quick : Bool)
  | endAuc (now aid : Nat) (winner : Option Nat)
  | updateMsgId (now aid mid : Nat)
deriving DecidableEq, Repr

def applyDbOp (db : DBState) : DbOp → DBState
  | .create newId d => db_create_auction db newId d
  | .placeBid now aid uid amount qk => (place_bid_optimized db now aid uid amount qk).2
  | .endAuc now aid w => db_end_auction db now aid w
  | .updateMsgId now aid mid => db_update_auction_message_id db now aid mid

/-- Side conditions of the command layer: `commands.py:create_auction`
rejects non-positive starting prices and increments before the row is
created, and `AUTOINCREMENT` ids are fresh. -/
def opWF (db : DBState) : DbOp → Prop
  | .create newId d =>
      0 < d.starting_price ∧ 0 < d.min_increment ∧ dbGetAuction db newId = none
  | _ => True

/-- The C4 invariant: every stored auction has a positive minimum increment
and a current price at or above its starting price. -/
def priceInv (db : DBState) : Prop :=
  ∀ p ∈ db.auctions, 0 < p.2.min_increment ∧ p.2.starting_price ≤ p.2.current_price

/-- The operation is a bid that the store accepted. -/
def isAcceptedBid (op : DbOp) (db : DBState) : Prop :=
  match op with
  | .placeBid now aid uid amount qk =>
      ∃ info, (place_bid_optimized db now aid uid amount qk).1 = .ok info
  | _ => False

/-- The auction a bid operation targets. -/
def bidTarget : DbOp → Nat
  | .placeBid _ aid _ _ _ => aid
  | _ => 0

/-- C4: for auctions created with positive increments, the current price is
an invariant: it stays at or above the starting price under every operation,
no operation decreases any auction's current price, and an accepted bid
strictly increases the price of its auction. -/
theorem currentPrice_invariant
    (db : DBState) (op : DbOp) (hnd : dbKeysNodup db)
    (hinv : priceInv db) (hwf : opWF db op) :
    priceInv (applyDbOp db op)
    ∧ (∀ k a a', dbGetAuction db k = some a →
        dbGetAuction (applyDbOp db op) k = some a' →
        a.current_price ≤ a'.current_price)
    ∧ (isAcceptedBid op db → ∀ a a',
        dbGetAuction db (bidTarget op) = some a →
        dbGetAuction (applyDbOp db op) (bidTarget op) = some a' →
        a.current_price < a'.current_price) := by
  cases op with
  | create newId d =>
    obtain ⟨hsp, hmi, hfresh⟩ := hwf
    refine ⟨?_, ?_, fun hacc => absurd hacc (by simp [isAcceptedBid])⟩
    · intro p hp
      rcases List.mem_append.mp hp with hl | hr
      · exact hinv p hl
      · have : p = (newId, mkAuctionRow d) := by simpa using hr
        subst this
        exact ⟨hmi, le_refl _⟩
    · intro k a a' hga hga'
      have : dbGetAuction (applyDbOp db (.create newId d)) k = some a :=
        alGet_append_of_some db.auctions _ k a hga
      rw [this] at hga'
      injection hga' with h
      rw [← h]
  | placeBid now aid uid amount qk =>
    cases hr : (place_bid_optimized db now aid uid amount qk).1 with
    | error e =>
      have hfr := place_bid_error_frame db now aid uid amount qk e hr
      have happ : applyDbOp db (.placeBid now aid uid amount qk) = db := hfr
      rw [happ]
      refine ⟨hinv, ?_, ?_⟩
      · intro k a a' hga hga'
        rw [hga] at hga'
        injection hga' with h
        rw [h]
      · intro hacc
        obtain ⟨info, hok⟩ := hacc
        rw [hr] at hok
        exact absurd hok (by simp)
    | ok info =>
      obtain ⟨a, hact, _, _, h3, hst⟩ :=
        place_bid_ok_inv db now aid uid amount qk info hr
      obtain ⟨hget, _⟩ := dbGetActiveAuction_some db aid a hnd hact
      have hmem := mem_of_alGet db.auctions aid a hget
      obtain ⟨hainc, hasp⟩ := hinv (aid, a) hmem
      have hcur_lt : a.current_price < amount := by
        have := not_lt.mp h3
        calc a.current_price < a.current_price + a.min_increment := by linarith
          _ ≤ amount := this
      have happ : applyDbOp db (.placeBid now aid uid amount qk)
          = commitBid db now aid uid amount qk := hst
      refine ⟨?_, ?_, ?_⟩
      · rw [happ]
        intro p hp
        unfold commitBid dbUpdateAuction at hp
        obtain ⟨q, hq, hpq⟩ := List.mem_map.mp hp
        by_cases hqa : q.1 = aid
        · rw [if_pos hqa] at hpq
          have hq2 : q.2 = a := by
            have h5 := alGet_of_mem_nodup db.auctions hnd q hq
            rw [hqa] at h5
            have hget' : alGet db.auctions aid = some a := hget
            rw [hget'] at h5
            injection h5 with h6
            exact h6.symm
          subst hpq
          refine ⟨by simpa [hq2] using hainc, ?_⟩
          show q.2.starting_price ≤ amount
          rw [hq2]
          exact le_of_lt (lt_of_le_of_lt hasp hcur_lt)
        · rw [if_neg hqa] at hpq
          subst hpq
          exact hinv q hq
      · intro k a0 a' hga hga'
        rw [happ] at hga'
        unfold commitBid at hga'
        rw [dbGetAuction_update] at hga'
        by_cases hk : k = aid
        · rw [if_pos hk] at hga'
          have hga1 : dbGetAuction
              { db with bids := db.bids ++ [⟨aid, uid, amount, now, qk⟩] } k
                = some a0 := hga
          rw [hga1, Option.map_some'] at hga'
          injection hga' with h
          subst hk
          have : a0 = a := by
            rw [hga] at hget
            injection hget
          rw [← h]
          simp only [this]
          exact le_of_lt hcur_lt
        · rw [if_neg hk] at hga'
          have hga1 : dbGetAuction
              { db with bids := db.bids ++ [⟨aid, uid, amount, now, qk⟩] } k
                = dbGetAuction db k := rfl
          rw [hga1, hga] at hga'
          injection hga' with h
          rw [h]
      · intro _ a0 a' hga hga'
        have htgt : bidTarget (.placeBid now aid uid amount qk) = aid := rfl
        rw [htgt] at hga hga'
        have ha0 : a0 = a := by
          rw [hga] at hget
          injection hget
        rw [happ] at hga'
        unfold commitBid at hga'
        rw [dbGetAuction_update, if_pos rfl] at hga'
        have hga1 : dbGetAuction
            { db with bids := db.bids ++ [⟨aid, uid, amount, now, qk⟩] } aid
              = some a := hget
        rw [hga1, Option.map_some'] at hga'
        injection hga' with h
        rw [← h, ha0]
        exact hcur_lt
  | endAuc now aid w =>
    refine ⟨?_, ?_, fun hacc => absurd hacc (by simp [isAcceptedBid])⟩
    · intro p hp
      unfold applyDbOp db_end_auction dbUpdateAuction at hp
      obtain ⟨q, hq, hpq⟩ := List.mem_map.mp hp
      by_cases hqa : q.1 = aid
      · rw [if_pos hqa] at hpq
        subst hpq
        exact hinv q hq
      · rw [if_neg hqa] at hpq
        subst hpq
        exact hinv q hq
    · intro k a a' hga hga'
      unfold applyDbOp db_end_auction at hga'
      rw [dbGetAuction_update] at hga'
      by_cases hk : k = aid
      · rw [if_pos hk, hga, Option.map_some'] at hga'
        injection hga' with h
        rw [← h]
      · rw [if_neg hk, hga] at hga'
        injection hga' with h
        rw [h]
  | updateMsgId now aid mid =>
    refine ⟨?_, ?_, fun hacc => absurd hacc (by simp [isAcceptedBid])⟩
    · intro p hp
      unfold applyDbOp db_update_auction_message_id dbUpdateAuction at hp
      obtain ⟨q, hq, hpq⟩ := List.mem_map.mp hp
      by_cases hqa : q.1 = aid
      · rw [if_pos hqa] at hpq
        subst hpq
        exact hinv q hq
      · rw [if_neg hqa] at hpq
        subst hpq
        exact hinv q hq
    · intro k a a' hga hga'
      unfold applyDbOp db_update_auction_message_id at hga'
      rw [dbGetAuction_update] at hga'
      by_cases hk : k = aid
      · rw [if_pos hk, hga, Option.map_some'] at hga'
        injection hga' with h
        rw [← h]
      · rw [if_neg hk, hga] at hga'
        injection hga' with h
        rw [h]

def rowD : AuctionRow :=
  ⟨10, 11, 2, "item", 100, 100, 10, "diamonds", 1000, .active, none, none, 0, 0⟩

def dbD : DBState := ⟨[(1, rowD)], []⟩

/-- C4 witness: the invariant theorem instantiated at a concrete store and a
concrete bid operation. -/
theorem currentPrice_invariant_witness :
    dbKeysNodup dbD ∧ priceInv dbD ∧ opWF dbD (.placeBid 5 1 3 120 false)
    ∧ (priceInv (applyDbOp dbD (.placeBid 5 1 3 120 false))
      ∧ (∀ k a a', dbGetAuction dbD k = some a →
          dbGetAuction (applyDbOp dbD (.placeBid 5 1 3 120 false)) k = some a' →
          a.current_price ≤ a'.current_price)
      ∧ (isAcceptedBid (.placeBid 5 1 3 120 false) dbD → ∀ a a',
          dbGetAuction dbD (bidTarget (.placeBid 5 1 3 120 false)) = some a →
          dbGetAuction (applyDbOp dbD (.placeBid 5 1 3 120 false))
              (bidTarget (.placeBid 5 1 3 120 false)) = some a' →
          a.current_price < a'.current_price)) := by
  have hnd : dbKeysNodup dbD := by unfold dbKeysNodup dbD; decide
  have hinv : priceInv dbD := by
    intro p hp
    have : p = (1, rowD) := by simpa [dbD] using hp
    subst this
    constructor <;> norm_num [rowD]
  have hwf : opWF dbD (.placeBid 5 1 3 120 false) := trivial
  exact ⟨hnd, hinv, hwf,
    currentPrice_invariant dbD (.placeBid 5 1 3 120 false) hnd hinv hwf⟩

/-! ## The TTL cache (`cache_manager.py`) -/

/-- The in-memory maps of `CacheManager` (the per-user `user_cache`, which no
auction operation reads or writes, is omitted). -/
structure CacheState where
  auction_cache : List (Nat × AuctionRow)
  auction_cache_ttl : List (Nat × Nat)
  bid_cache : List (Nat × List BidRow)
  bid_cache_ttl : List (Nat × Nat)
  bid_counts : List (Nat × Nat)
deriving DecidableEq, Repr

def emptyCache : CacheState := ⟨[], [], [], [], []⟩

def auction_ttl : Nat := 30
def bid_ttl : Nat := 10

/-- The pure cache probe at the top of `get_auction_cached`: a hit needs the
entry, its expiry, and `now` strictly before the expiry. -/
def cacheProbeAuction (cs : CacheState) (now aid : Nat) : Option AuctionRow :=
  match alGet cs.auction_cache aid, alGet cs.auction_cache_ttl aid with
  | some v, some exp => if now < exp then some v else none
  | _, _ => none

/-- The pure cache probe at the top of `get_auction_bids_cached`. -/
def cacheProbeBids (cs : CacheState) (now aid : Nat) : Option (List BidRow) :=
  match alGet cs.bid_cache aid, alGet cs.bid_cache_ttl aid with
  | some v, some exp => if now < exp then some v else none
  | _, _ => none

/-- The cache write performed on an auction read-through miss. -/
@[reducible] def cacheStoreAuction (cs : CacheState) (now aid : Nat)
    (a : AuctionRow) : CacheState :=
  { cs with auction_cache := alSet cs.auction_cache aid a,
            auction_cache_ttl := alSet cs.auction_cache_ttl aid (now + auction_ttl) }

/-- The cache write performed on a bids read-through miss. -/
@[reducible] def cacheStoreBids (cs : CacheState) (now aid : Nat)
    (l : List BidRow) : CacheState :=
  { cs with bid_cache := alSet cs.bid_cache aid l,
            bid_cache_ttl := alSet cs.bid_cache_ttl aid (now + bid_ttl) }

/-- `cache_manager.py:get_auction_cached`: read-through; a database hit is
stored with a fresh TTL, a database miss is never cached. -/
def get_auction_cached (cs : CacheState) (db : DBState) (now aid : Nat) :
    Option AuctionRow × CacheState :=
  match cacheProbeAuction cs now aid with
  | some v => (some v, cs)
  | none =>
    match dbGetAuction db aid with
    | some a => (some a, cacheStoreAuction cs now aid a)
    | none => (none, cs)

/-- `cache_manager.py:get_auction_bids_cached`: on a miss it fetches
`max(limit*3, 20)` rows, caches them only when nonempty, and returns the
first `limit`. -/
def get_auction_bids_cached (cs : CacheState) (db : DBState) (now aid limit : Nat) :
    List BidRow × CacheState :=
  match cacheProbeBids cs now aid with
  | some l => (l.take limit, cs)
  | none =>
    let bids := dbGetAuctionBids db aid (max (limit * 3) 20)
    if bids.isEmpty then ([], cs)
    else (bids.take limit, cacheStoreBids cs now aid bids)

/-- `cache_manager.py:invalidate_auction_cache`: pops the auction snapshot,
its TTL, the bids list, its TTL, and the bid count, all for one id. -/
def invalidate_auction_cache (cs : CacheState) (aid : Nat) : CacheState :=
  { auction_cache := alErase cs.auction_cache aid
    auction_cache_ttl := alErase cs.auction_cache_ttl aid
    bid_cache := alErase cs.bid_cache aid
    bid_cache_ttl := alErase cs.bid_cache_ttl aid
    bid_counts := alErase cs.bid_counts aid }

/-- `cache_manager.py:invalidate_bid_cache`. -/
def invalidate_bid_cache (cs : CacheState) (aid : Nat) : CacheState :=
  { cs with bid_cache := alErase cs.bid_cache aid
            bid_cache_ttl := alErase cs.bid_cache_ttl aid
            bid_counts := alErase cs.bid_counts aid }

/-- `cache_manager.py:update_auction_cache`. -/
def update_auction_cache (cs : CacheState) (now aid : Nat) (data : AuctionRow) : CacheState :=
  { cs with auction_cache := alSet cs.auction_cache aid data
            auction_cache_ttl := alSet cs.auction_cache_ttl aid (now + auction_ttl) }

/-- `cache_manager.py:increment_bid_count`. -/
def increment_bid_count (cs : CacheState) (db : DBState) (aid : Nat) : Nat × CacheState :=
  let base := match alGet cs.bid_counts aid with
    | some n => n
    | none => (dbGetAuctionBids db aid 1000).length
  (base + 1, { cs with bid_counts := alSet cs.bid_counts aid (base + 1) })

/-- `cache_manager.py:get_bid_count`. -/
def get_bid_count (cs : CacheState) (db : DBState) (aid : Nat) : Nat × CacheState :=
  match alGet cs.bid_counts aid with
  | some n => (n, cs)
  | none =>
    let c := (dbGetAuctionBids db aid 1000).length
    (c, { cs with bid_counts := alSet cs.bid_counts aid c })

/-- `cache_manager.py:cleanup_expired_cache`: drop every entry whose expiry
is at or before now (the count map has no TTL and is untouched). -/
def cleanup_expired_cache (cs : CacheState) (now : Nat) : CacheState :=
  let expiredA := (cs.auction_cache_ttl.filter (fun p => decide (p.2 ≤ now))).map (·.1)
  let expiredB := (cs.bid_cache_ttl.filter (fun p => decide (p.2 ≤ now))).map (·.1)
  { cs with
    auction_cache := cs.auction_cache.filter (fun p => !(expiredA.contains p.1))
    auction_cache_ttl := cs.auction_cache_ttl.filter (fun p => !(expiredA.contains p.1))
    bid_cache := cs.bid_cache.filter (fun p => !(expiredB.contains p.1))
    bid_cache_ttl := cs.bid_cache_ttl.filter (fun p => !(expiredB.contains p.1)) }

/-! ## Claim C9 -/

/-- The cache operations of `cache_manager.py` (reads carry the clock; the
store they read through is a parameter of `applyCacheOp`). -/
inductive CacheOp where
  | readAuction (now aid : Nat)
  | readBids (now aid limit : Nat)
  | updateAuction (now aid : Nat) (row : AuctionRow)
  | incCount (aid : Nat)
  | readCount (aid : Nat)
  | invalidate (aid : Nat)
  | invalidateBids (aid : Nat)
  | sweep (now : Nat)
deriving DecidableEq, Repr

def applyCacheOp (db : DBState) (cs : CacheState) : CacheOp → CacheState
  | .readAuction now aid => (get_auction_cached cs db now aid).2
  | .readBids now aid limit => (get_auction_bids_cached cs db now aid limit).2
  | .updateAuction now aid row => update_auction_cache cs now aid row
  | .incCount aid => (increment_bid_count cs db aid).2
  | .readCount aid => (get_bid_count cs db aid).2
  | .invalidate aid => invalidate_auction_cache cs aid
  | .invalidateBids aid => invalidate_bid_cache cs aid
  | .sweep now => cleanup_expired_cache cs now

def applyCacheOps (db : DBState) (cs : CacheState) : List CacheOp → CacheState
  | [] => cs
  | op :: ops => applyCacheOps db (applyCacheOp db cs op) ops

/-- Whether an operation can (re)store an entry for the given id. -/
def opPutsKey (aid : Nat) : CacheOp → Prop
  | .readAuction _ k => k = aid
  | .readBids _ k _ => k = aid
  | .updateAuction _ k _ => k = aid
  | .incCount k => k = aid
  | .readCount k => k = aid
  | _ => False

/-- All five maps have no entry for the id. -/
def missAt (cs : CacheState) (aid : Nat) : Prop :=
  alGet cs.auction_cache aid = none
  ∧ alGet cs.auction_cache_ttl aid = none
  ∧ alGet cs.bid_cache aid = none
  ∧ alGet cs.bid_cache_ttl aid = none
  ∧ alGet cs.bid_counts aid = none

theorem alGet_filter_none {α : Type} (l : List (Nat × α)) (f : Nat × α → Bool)
    (k : Nat) (h : alGet l k = none) : alGet (l.filter f) k = none := by
  rw [alGet_eq_none_iff] at h ⊢
  exact fun p hp => h p (List.mem_of_mem_filter hp)

theorem missAt_invalidate (cs : CacheState) (aid : Nat) :
    missAt (invalidate_auction_cache cs aid) aid :=
  ⟨alGet_alErase_same _ _, alGet_alErase_same _ _, alGet_alErase_same _ _,
    alGet_alErase_same _ _, alGet_alErase_same _ _⟩

theorem missAt_probe (cs : CacheState) (aid : Nat) (h : missAt cs aid) (now : Nat) :
    cacheProbeAuction cs now aid = none ∧ cacheProbeBids cs now aid = none := by
  constructor
  · unfold cacheProbeAuction
    rw [h.1]
  · unfold cacheProbeBids
    rw [h.2.2.1]

/-- The read-through auction getter either leaves the cache alone or writes
the entry of the id it was asked for. -/
theorem get_auction_cached_snd (cs : CacheState) (db : DBState) (now aid : Nat) :
    (get_auction_cached cs db now aid).2 = cs
    ∨ ∃ a, (get_auction_cached cs db now aid).2 = cacheStoreAuction cs now aid a := by
  unfold get_auction_cached
  cases cacheProbeAuction cs now aid with
  | some v => exact Or.inl rfl
  | none =>
    cases dbGetAuction db aid with
    | some a => exact Or.inr ⟨a, rfl⟩
    | none => exact Or.inl rfl

theorem get_auction_bids_cached_snd (cs : CacheState) (db : DBState)
    (now aid limit : Nat) :
    (get_auction_bids_cached cs db now aid limit).2 = cs
    ∨ ∃ l, (get_auction_bids_cached cs db now aid limit).2
        = cacheStoreBids cs now aid l := by
  unfold get_auction_bids_cached
  cases cacheProbeBids cs now aid with
  | some v => exact Or.inl rfl
  | none =>
    dsimp only
    by_cases he : (dbGetAuctionBids db aid (max (limit * 3) 20)).isEmpty
    · rw [if_pos he]
      exact Or.inl rfl
    · rw [if_neg he]
      exact Or.inr ⟨_, rfl⟩

/-- A non-putting operation keeps a fully-missing id fully missing. -/
theorem missAt_applyCacheOp (db : DBState) (cs : CacheState) (aid : Nat)
    (op : CacheOp) (hop : ¬ opPutsKey aid op) (h : missAt cs aid) :
    missAt (applyCacheOp db cs op) aid := by
  cases op with
  | readAuction now k =>
    have hk : k ≠ aid := hop
    rcases get_auction_cached_snd cs db now k with hc | ⟨a, hc⟩
    · rw [applyCacheOp, hc]; exact h
    · rw [applyCacheOp, hc]
      exact ⟨by rw [alGet_alSet_ne _ _ _ _ (Ne.symm hk)]; exact h.1,
        by rw [alGet_alSet_ne _ _ _ _ (Ne.symm hk)]; exact h.2.1,
        h.2.2.1, h.2.2.2.1, h.2.2.2.2⟩
  | readBids now k limit =>
    have hk : k ≠ aid := hop
    rcases get_auction_bids_cached_snd cs db now k limit with hc | ⟨l, hc⟩
    · rw [applyCacheOp, hc]; exact h
    · rw [applyCacheOp, hc]
      exact ⟨h.1, h.2.1,
        by rw [alGet_alSet_ne _ _ _ _ (Ne.symm hk)]; exact h.2.2.1,
        by rw [alGet_alSet_ne _ _ _ _ (Ne.symm hk)]; exact h.2.2.2.1,
        h.2.2.2.2⟩
  | updateAuction now k row =>
    have hk : k ≠ aid := hop
    exact ⟨by rw [applyCacheOp, update_auction_cache,
        alGet_alSet_ne _ _ _ _ (Ne.symm hk)]; exact h.1,
      by rw [applyCacheOp, update_auction_cache,
        alGet_alSet_ne _ _ _ _ (Ne.symm hk)]; exact h.2.1,
      h.2.2.1, h.2.2.2.1, h.2.2.2.2⟩
  | incCount k =>
    have hk : k ≠ aid := hop
    exact ⟨h.1, h.2.1, h.2.2.1, h.2.2.2.1,
      by rw [applyCacheOp, increment_bid_count,
        alGet_alSet_ne _ _ _ _ (Ne.symm hk)]; exact h.2.2.2.2⟩
  | readCount k =>
    have hk : k ≠ aid := hop
    rw [applyCacheOp, get_bid_count]
    cases alGet cs.bid_counts k with
    | some n => exact h
    | none =>
      exact ⟨h.1, h.2.1, h.2.2.1, h.2.2.2.1,
        by rw [alGet_alSet_ne _ _ _ _ (Ne.symm hk)]; exact h.2.2.2.2⟩
  | invalidate k =>
    by_cases hk : k = aid
    · subst hk
      exact missAt_invalidate cs k
    · exact ⟨by rw [applyCacheOp, invalidate_auction_cache,
          alGet_alErase_ne _ _ _ (Ne.symm hk)]; exact h.1,
        by rw [applyCacheOp, invalidate_auction_cache,
          alGet_alErase_ne _ _ _ (Ne.symm hk)]; exact h.2.1,
        by rw [applyCacheOp, invalidate_auction_cache,
          alGet_alErase_ne _ _ _ (Ne.symm hk)]; exact h.2.2.1,
        by rw [applyCacheOp, invalidate_auction_cache,
          alGet_alErase_ne _ _ _ (Ne.symm hk)]; exact h.2.2.2.1,
        by rw [applyCacheOp, invalidate_auction_cache,
          alGet_alErase_ne _ _ _ (Ne.symm hk)]; exact h.2.2.2.2⟩
  | invalidateBids k =>
    by_cases hk : k = aid
    · subst hk
      exact ⟨h.1, h.2.1, alGet_alErase_same _ _, alGet_alErase_same _ _,
        alGet_alErase_same _ _⟩
    · exact ⟨h.1, h.2.1,
        by rw [applyCacheOp, invalidate_bid_cache,
          alGet_alErase_ne _ _ _ (Ne.symm hk)]; exact h.2.2.1,
        by rw [applyCacheOp, invalidate_bid_cache,
          alGet_alErase_ne _ _ _ (Ne.symm hk)]; exact h.2.2.2.1,
        by rw [applyCacheOp, invalidate_bid_cache,
          alGet_alErase_ne _ _ _ (Ne.symm hk)]; exact h.2.2.2.2⟩
  | sweep now =>
    exact ⟨alGet_filter_none _ _ _ h.1, alGet_filter_none _ _ _ h.2.1,
      alGet_filter_none _ _ _ h.2.2.1, alGet_filter_none _ _ _ h.2.2.2.1,
      h.2.2.2.2⟩

theorem missAt_applyCacheOps (db : DBState) (cs : CacheState) (aid : Nat)
    (ops : List CacheOp) (hops : ∀ op ∈ ops, ¬ opPutsKey aid op)
    (h : missAt cs aid) : missAt (applyCacheOps db cs ops) aid := by
  induction ops generalizing cs with
  | nil => exact h
  | cons op ops ih =>
    exact ih (applyCacheOp db cs op) (fun o ho => hops o (List.mem_cons_of_mem op ho))
      (missAt_applyCacheOp db cs aid op (hops op (List.mem_cons_self op ops)) h)

/-- C9: one invalidation removes the auction snapshot, the bids list and the
bid count together; every other id's entries are untouched; and the entries
for the invalidated id stay a miss under any sequence of cache operations
that contains no put for that id. -/
theorem cache_invalidate_miss_until_put (cs : CacheState) (db : DBState) (aid : Nat) :
    (∀ now, cacheProbeAuction (invalidate_auction_cache cs aid) now aid = none
      ∧ cacheProbeBids (invalidate_auction_cache cs aid) now aid = none
      ∧ alGet (invalidate_auction_cache cs aid).bid_counts aid = none)
    ∧ (∀ k, k ≠ aid →
        alGet (invalidate_auction_cache cs aid).auction_cache k = alGet cs.auction_cache k
        ∧ alGet (invalidate_auction_cache cs aid).auction_cache_ttl k
            = alGet cs.auction_cache_ttl k
        ∧ alGet (invalidate_auction_cache cs aid).bid_cache k = alGet cs.bid_cache k
        ∧ alGet (invalidate_auction_cache cs aid).bid_cache_ttl k
            = alGet cs.bid_cache_ttl k
        ∧ alGet (invalidate_auction_cache cs aid).bid_counts k = alGet cs.bid_counts k)
    ∧ (∀ ops : List CacheOp, (∀ op ∈ ops, ¬ opPutsKey aid op) → ∀ now,
        cacheProbeAuction (applyCacheOps db (invalidate_auction_cache cs aid) ops) now aid
          = none
        ∧ cacheProbeBids (applyCacheOps db (invalidate_auction_cache cs aid) ops) now aid
          = none
        ∧ alGet (applyCacheOps db (invalidate_auction_cache cs aid) ops).bid_counts aid
          = none) := by
  refine ⟨?_, ?_, ?_⟩
  · intro now
    have h := missAt_invalidate cs aid
    exact ⟨(missAt_probe _ aid h now).1, (missAt_probe _ aid h now).2, h.2.2.2.2⟩
  · intro k hk
    exact ⟨alGet_alErase_ne _ _ _ hk, alGet_alErase_ne _ _ _ hk,
      alGet_alErase_ne _ _ _ hk, alGet_alErase_ne _ _ _ hk,
      alGet_alErase_ne _ _ _ hk⟩
  · intro ops hops now
    have h := missAt_applyCacheOps db (invalidate_auction_cache cs aid) aid ops hops
      (missAt_invalidate cs aid)
    exact ⟨(missAt_probe _ aid h now).1, (missAt_probe _ aid h now).2, h.2.2.2.2⟩

def rowE : AuctionRow :=
  ⟨10, 11, 2, "item", 100, 100, 10, "diamonds", 1000, .active, none, none, 0, 0⟩

def csE : CacheState :=
  ⟨[(1, rowE), (2, rowE)], [(1, 40), (2, 40)], [(1, [])], [(1, 15)], [(1, 3)]⟩

def dbE : DBState := ⟨[(1, rowE)], []⟩

/-- C9 witness: the theorem instantiated at a concrete cache, with a
subsequent read of a different auction, which keeps id 1 a miss. -/
theorem cache_invalidate_miss_until_put_witness :
    (∀ op ∈ ([CacheOp.readAuction 0 2] : List CacheOp), ¬ opPutsKey 1 op)
    ∧ (cacheProbeAuction
          (applyCacheOps dbE (invalidate_auction_cache csE 1) [CacheOp.readAuction 0 2]) 0 1
        = none
      ∧ cacheProbeBids
          (applyCacheOps dbE (invalidate_auction_cache csE 1) [CacheOp.readAuction 0 2]) 0 1
        = none
      ∧ alGet
          (applyCacheOps dbE (invalidate_auction_cache csE 1) [CacheOp.readAuction 0 2]).bid_counts 1
        = none) := by
  have hops : ∀ op ∈ ([CacheOp.readAuction 0 2] : List CacheOp), ¬ opPutsKey 1 op := by
    intro op hmem
    have : op = CacheOp.readAuction 0 2 := by simpa using hmem
    subst this
    exact fun h => by cases h
  exact ⟨hops, (cache_invalidate_miss_until_put csE dbE 1).2.2
    [CacheOp.readAuction 0 2] hops 0⟩

/-! ## Claim C10: the heap-level view of the cache-hit path -/

/-- A tiny heap of Python dicts: references to `AuctionRow` dictionaries. -/
structure Heap where
  mem : List (Nat × AuctionRow)
  next : Nat
deriving DecidableEq, Repr

def hread (h : Heap) (r : Nat) : Option AuctionRow := alGet h.mem r

def hwrite (h : Heap) (r : Nat) (v : AuctionRow) : Heap :=
  { h with mem := alSet h.mem r v }

/-- `.copy()`: allocate a fresh dict with the same contents. -/
def halloc (h : Heap) (v : AuctionRow) : Nat × Heap :=
  (h.next, { mem := alSet h.mem h.next v, next := h.next + 1 })

/-- The auction cache seen at the heap level: it stores references. -/
structure RefCache where
  auction_cache : List (Nat × Nat)
  auction_cache_ttl : List (Nat × Nat)
deriving DecidableEq, Repr

/-- The cache-hit path of `get_auction_cached` at the heap level: on a valid
hit the stored dict is `.copy()`-ed and the fresh reference is returned. -/
def get_auction_cached_hit (h : Heap) (rc : RefCache) (now aid : Nat) :
    Option (Nat × Heap) :=
  match alGet rc.auction_cache aid, alGet rc.auction_cache_ttl aid with
  | some r, some exp =>
    if now < exp then
      match hread h r with
      | some v => some (halloc h v)
      | none => none
    else none
  | _, _ => none

/-- Heap well-formedness: every cached reference was allocated. -/
def heapWF (h : Heap) (rc : RefCache) : Prop :=
  ∀ aid r, alGet rc.auction_cache aid = some r → r < h.next

/-- C10: the dict returned by a cache hit is a defensive copy: it is a
different reference from the cached one, mutating it leaves the cached dict
unchanged, and a later hit within the TTL still returns the original field
values. -/
theorem cached_read_returns_defensive_copy
    (h : Heap) (rc : RefCache) (now nxt aid r exp : Nat) (v : AuctionRow)
    (ret : Nat) (h' : Heap)
    (hwf : heapWF h rc)
    (hr : alGet rc.auction_cache aid = some r)
    (hexp : alGet rc.auction_cache_ttl aid = some exp)
    (hv : hread h r = some v)
    (hnow : now < exp) (hnxt : nxt < exp)
    (hret : get_auction_cached_hit h rc now aid = some (ret, h')) :
    ret ≠ r
    ∧ ∀ w, hread (hwrite h' ret w) r = some v
        ∧ ∃ ret2 h2, get_auction_cached_hit (hwrite h' ret w) rc nxt aid
              = some (ret2, h2)
            ∧ hread h2 ret2 = some v := by
  have heval : get_auction_cached_hit h rc now aid = some (halloc h v) := by
    unfold get_auction_cached_hit
    rw [hr, hexp]
    dsimp only
    rw [if_pos hnow, hv]
  rw [heval] at hret
  injection hret with hp
  have hret1 : ret = h.next := by
    have := congrArg Prod.fst hp
    simpa [halloc] using this.symm
  have hh' : h' = { mem := alSet h.mem h.next v, next := h.next + 1 } := by
    have := congrArg Prod.snd hp
    simpa [halloc] using this.symm
  have hrlt : r < h.next := hwf aid r hr
  have hne : ret ≠ r := by
    rw [hret1]
    exact fun he => absurd hrlt (by rw [← he]; exact lt_irrefl _)
  refine ⟨hne, ?_⟩
  intro w
  have hread_r : hread (hwrite h' ret w) r = some v := by
    unfold hread hwrite
    show alGet (alSet h'.mem ret w) r = some v
    rw [alGet_alSet_ne _ _ _ _ (Ne.symm hne), hh']
    show alGet (alSet h.mem h.next v) r = some v
    rw [alGet_alSet_ne _ _ _ _ (Nat.ne_of_lt hrlt)]
    exact hv
  constructor
  · exact hread_r
  · refine ⟨(hwrite h' ret w).next,
      { mem := alSet (hwrite h' ret w).mem (hwrite h' ret w).next v,
        next := (hwrite h' ret w).next + 1 }, ?_, ?_⟩
    · unfold get_auction_cached_hit
      rw [hr, hexp]
      dsimp only
      rw [if_pos hnxt, hread_r]
      rfl
    · show alGet (alSet (hwrite h' ret w).mem (hwrite h' ret w).next v)
        (hwrite h' ret w).next = some v
      exact alGet_alSet_same _ _ _

def rowF : AuctionRow :=
  ⟨10, 11, 2, "item", 100, 100, 10, "diamonds", 1000, .active, none, none, 0, 0⟩

def hF : Heap := ⟨[(0, rowF)], 1⟩

def rcF : RefCache := ⟨[(1, 0)], [(1, 100)]⟩

def hF2 : Heap := ⟨[(1, rowF), (0, rowF)], 2⟩

/-- C10 witness: a concrete cache hit returns reference 1, distinct from
cached reference 0, and mutation through it does not affect later reads. -/
theorem cached_read_returns_defensive_copy_witness :
    heapWF hF rcF
    ∧ alGet rcF.auction_cache 1 = some 0
    ∧ alGet rcF.auction_cache_ttl 1 = some 100
    ∧ hread hF 0 = some rowF
    ∧ (5 : Nat) < 100 ∧ (6 : Nat) < 100
    ∧ get_auction_cached_hit hF rcF 5 1 = some (1, hF2)
    ∧ ((1 : Nat) ≠ 0
      ∧ ∀ w, hread (hwrite hF2 1 w) 0 = some rowF
          ∧ ∃ ret2 h2, get_auction_cached_hit (hwrite hF2 1 w) rcF 6 1
                = some (ret2, h2)
              ∧ hread h2 ret2 = some rowF) := by
  have hwfF : heapWF hF rcF := by
    intro aid r hh
    by_cases h1 : (1 : Nat) = aid
    · rw [show rcF.auction_cache = [(1, 0)] from rfl, alGet_cons_pair, if_pos h1] at hh
      injection hh with h2
      rw [← h2]
      decide
    · rw [show rcF.auction_cache = [(1, 0)] from rfl, alGet_cons_pair, if_neg h1] at hh
      cases hh
  have hretF : get_auction_cached_hit hF rcF 5 1 = some (1, hF2) := rfl
  exact ⟨hwfF, rfl, rfl, rfl, by decide, by decide, hretF,
    cached_read_returns_defensive_copy hF rcF 5 6 1 0 100 rowF 1 hF2
      hwfF rfl rfl rfl (by decide) (by decide) hretF⟩

/-! ## The concurrency guard (`main.py`) and the bid command (`commands.py`) -/

/-- The process-local actor state of `OptimizedAuctionBot`: cooldown-until
instants and the set of users with a bid in flight. -/
structure GuardState where
  user_cooldowns : List (Nat × Nat)
  bid_processing : List Nat
deriving DecidableEq, Repr

/-- `main.py:is_user_on_cooldown`. -/
def is_user_on_cooldown (g : GuardState) (now uid : Nat) : Bool :=
  match alGet g.user_cooldowns uid with
  | some cooldown_end => decide (now < cooldown_end)
  | none => false

/-- `main.py:set_user_cooldown`. -/
def set_user_cooldown (g : GuardState) (now uid secs : Nat) : GuardState :=
  { g with user_cooldowns := alSet g.user_cooldowns uid (now + secs) }

/-- `main.py:is_bid_processing`. -/
def is_bid_processing (g : GuardState) (uid : Nat) : Bool :=
  g.bid_processing.contains uid

/-- `main.py:set_bid_processing`: `set.add` / `set.discard`. -/
def set_bid_processing (g : GuardState) (uid : Nat) (processing : Bool) : GuardState :=
  if processing then
    { g with bid_processing :=
        if g.bid_processing.contains uid then g.bid_processing
        else uid :: g.bid_processing }
  else
    { g with bid_processing := g.bid_processing.filter (fun u => u != uid) }

/-- The whole bot state the bid command touches. -/
structure BotState where
  guard : GuardState
  cache : CacheState
  db : DBState
deriving DecidableEq, Repr

/-- The user-visible outcome of one `/pujar` invocation
(`commands.py:bid`); `raisedError` is the `except` path, reached when the
final confirmation send raises. -/
inductive BidCmdOutcome where
  | cooldownRejected
  | processingRejected
  | notFound
  | inactive
  | selfRejected
  | expiredRejected
  | belowMin
  | dbRejected (e : BidError)
  | raisedError
  | confirmed
deriving DecidableEq, Repr

/-- The body of `commands.py:bid` inside the try/finally that owns the
in-flight marker: pre-checks against the cached row, then the transactional
bid, then cooldown and cache invalidation. -/
def bid_command_body (s : BotState) (now aid uid : Nat) (amount : ℚ)
    (cooldown_secs : Nat) (sendFails : Bool) :
    BidCmdOutcome × GuardState × CacheState × DBState :=
  match get_auction_cached s.cache s.db now aid with
  | (none, c1) => (.notFound, s.guard, c1, s.db)
  | (some a, c1) =>
    if a.status ≠ Status.active then (.inactive, s.guard, c1, s.db)
    else if uid = a.creator_id then (.selfRejected, s.guard, c1, s.db)
    else if a.ends_at ≤ now then (.expiredRejected, s.guard, c1, s.db)
    else if amount < a.current_price + a.min_increment then
      (.belowMin, s.guard, c1, s.db)
    else
      match place_bid_optimized s.db now aid uid amount false with
      | (.error e, db1) => (.dbRejected e, s.guard, c1, db1)
      | (.ok _, db1) =>
        let g2 := set_user_cooldown s.guard now uid cooldown_secs
        let c2 := invalidate_auction_cache c1 aid
        if sendFails then (.raisedError, g2, c2, db1)
        else (.confirmed, g2, c2, db1)

/-- `commands.py:bid`: cooldown check, in-flight check, marker set, body,
and the `finally`/`except` release of the marker on every exit path. -/
def bid_command (s : BotState) (now aid uid : Nat) (amount : ℚ)
    (cooldown_secs : Nat) (sendFails : Bool) : BidCmdOutcome × BotState :=
  if is_user_on_cooldown s.guard now uid then (.cooldownRejected, s)
  else if is_bid_processing s.guard uid then (.processingRejected, s)
  else
    let g1 := set_bid_processing s.guard uid true
    let r := bid_command_body { s with guard := g1 } now aid uid amount
      cooldown_secs sendFails
    let gEnd := set_bid_processing r.2.1 uid false
    (r.1, ⟨gEnd, r.2.2.1, r.2.2.2⟩)

/-! ## Claim C8 -/

theorem contains_filter_ne_self (l : List Nat) (uid : Nat) :
    (l.filter (fun u => u != uid)).contains uid = false := by
  induction l with
  | nil => rfl
  | cons a t ih =>
    by_cases ha : a = uid
    · simp [List.filter_cons, ha, ih]
    · simp [List.filter_cons, ha, List.contains_cons, Ne.symm ha, ih]

theorem is_bid_processing_after_release (g : GuardState) (uid : Nat) :
    is_bid_processing (set_bid_processing g uid false) uid = false := by
  unfold is_bid_processing set_bid_processing
  show (g.bid_processing.filter (fun u => u != uid)).contains uid = false
  exact contains_filter_ne_self g.bid_processing uid

theorem is_bid_processing_after_begin (g : GuardState) (uid : Nat) :
    is_bid_processing (set_bid_processing g uid true) uid = true := by
  unfold is_bid_processing set_bid_processing
  show (if g.bid_processing.contains uid = true then g.bid_processing
    else uid :: g.bid_processing).contains uid = true
  by_cases hc : g.bid_processing.contains uid = true
  · rw [if_pos hc]
    exact hc
  · rw [if_neg hc]
    simp [List.contains_cons]

/-- The body never touches the in-flight marker (it only sets cooldowns). -/
theorem bid_command_body_preserves_processing (s : BotState) (now aid uid : Nat)
    (amount : ℚ) (cooldown_secs : Nat) (sendFails : Bool) :
    (bid_command_body s now aid uid amount cooldown_secs sendFails).2.1.bid_processing
      = s.guard.bid_processing := by
  unfold bid_command_body
  cases hga : get_auction_cached s.cache s.db now aid with
  | mk o c1 =>
    cases o with
    | none => rfl
    | some a =>
      dsimp only
      by_cases h1 : a.status ≠ Status.active
      · rw [if_pos h1]
      · rw [if_neg h1]
        by_cases h2 : uid = a.creator_id
        · rw [if_pos h2]
        · rw [if_neg h2]
          by_cases h3 : a.ends_at ≤ now
          · rw [if_pos h3]
          · rw [if_neg h3]
            by_cases h4 : amount < a.current_price + a.min_increment
            · rw [if_pos h4]
            · rw [if_neg h4]
              cases hpb : place_bid_optimized s.db now aid uid amount false with
              | mk r db1 =>
                cases r with
                | error e => rfl
                | ok info =>
                  dsimp only
                  by_cases h5 : sendFails
                  · rw [if_pos h5]
                    rfl
                  · rw [if_neg h5]
                    rfl

/-- C8: the in-flight marker release runs on every exit path of the bid
command: whatever the outcome (cooldown rejection, guard rejection, cache
pre-check rejection, store rejection, an exception while sending, or
success), an actor who was not in flight before the call is not in flight
after it, so a following in-flight check passes; and between the marker set
and its release the in-flight check fails. -/
theorem bid_guard_released_on_every_path
    (s : BotState) (now aid uid : Nat) (amount : ℚ)
    (cooldown_secs : Nat) (sendFails : Bool)
    (hfree : is_bid_processing s.guard uid = false) :
    is_bid_processing
        (bid_command s now aid uid amount cooldown_secs sendFails).2.guard uid = false
    ∧ is_bid_processing (set_bid_processing s.guard uid true) uid = true := by
  refine ⟨?_, is_bid_processing_after_begin s.guard uid⟩
  unfold bid_command
  by_cases hc : is_user_on_cooldown s.guard now uid
  · rw [if_pos hc]
    exact hfree
  · rw [if_neg (by simp [hc]), if_neg (by simp [hfree])]
    exact is_bid_processing_after_release _ uid

def rowG : AuctionRow :=
  ⟨10, 11, 2, "item", 100, 100, 10, "diamonds", 1000, .active, none, none, 0, 0⟩

def sG : BotState := ⟨⟨[], []⟩, emptyCache, ⟨[(1, rowG)], []⟩⟩

/-- C8 witness: user 3, initially not in flight, runs the bid command (with
the confirmation send failing, exercising the exception path); the marker is
clear afterwards, and is set between begin and release. -/
theorem bid_guard_released_on_every_path_witness :
    is_bid_processing sG.guard 3 = false
    ∧ (is_bid_processing (bid_command sG 5 1 3 120 2 true).2.guard 3 = false
      ∧ is_bid_processing (set_bid_processing sG.guard 3 true) 3 = true) := by
  have hfree : is_bid_processing sG.guard 3 = false := rfl
  exact ⟨hfree, bid_guard_released_on_every_path sG 5 1 3 120 2 true hfree⟩

/-! ## The lifecycle scheduler (`timer_manager.py`) -/

/-- The state `TimerManager` works over: the store, the cache, and the
`active_timers` map from auction id to the armed delay (seconds). -/
structure SysState where
  db : DBState
  cache : CacheState
  timers : List (Nat × Nat)
deriving DecidableEq, Repr

/-- `timer_manager.py:end_auction`: read the auction (cache falling back to
the store), treat a non-active auction as an idempotent success, otherwise
compute the winner from the most recent bid, write status and winner in one
store update, invalidate the cache and clear the timer. -/
def tm_end_auction (s : SysState) (now aid : Nat) : Bool × SysState :=
  let res := get_auction_cached s.cache s.db now aid
  match res.1 with
  | none => (false, { s with cache := res.2 })
  | some a =>
    if a.status ≠ Status.active then (true, { s with cache := res.2 })
    else
      let r := get_auction_bids_cached res.2 s.db now aid 1
      let winner := r.1.head?.map (·.user_id)
      let db2 := db_end_auction s.db now aid winner
      let c3 := invalidate_auction_cache r.2 aid
      (true, { db := db2, cache := c3, timers := alErase s.timers aid })

/-- `timer_manager.py:schedule_auction_end`: cancel any prior timer, close at
once when the end time has passed, otherwise arm one timer with the
remaining delay (delays under a minute are clamped to at least one second). -/
def schedule_auction_end (s : SysState) (now aid endt : Nat) : SysState :=
  let s1 : SysState := { s with timers := alErase s.timers aid }
  if endt ≤ now then (tm_end_auction s1 now aid).2
  else
    let d0 := endt - now
    let d := if d0 < 60 then max d0 1 else d0
    { s1 with timers := alSet s1.timers aid d }

/-- The per-auction body of the recovery loop: re-arm the timer when the end
time is still ahead, close otherwise. -/
def recoverStep (now : Nat) (st2 : SysState) (p : Nat × AuctionRow) : SysState :=
  if now < p.2.ends_at then schedule_auction_end st2 now p.1 p.2.ends_at
  else (tm_end_auction st2 now p.1).2

/-- The per-guild body of the recovery loop. -/
def recoverGuildStep (now : Nat) (st : SysState) (g : Nat) : SysState :=
  (dbGetActiveAuctions st.db g).foldl (recoverStep now) st

/-- `timer_manager.py:recover_active_auctions`: close every expired active
auction, then for each guild re-arm (or close) its active auctions. -/
def recover_active_auctions (s : SysState) (now : Nat) (guilds : List Nat) : SysState :=
  let expired := dbGetExpiredAuctions s.db now
  let s1 := expired.foldl (fun st p => (tm_end_auction st now p.1).2) s
  guilds.foldl (recoverGuildStep now) s1

/-! ### Cache read-through equations -/

theorem cacheProbeAuction_some_inv (cs : CacheState) (now aid : Nat) (a : AuctionRow)
    (h : cacheProbeAuction cs now aid = some a) :
    alGet cs.auction_cache aid = some a := by
  unfold cacheProbeAuction at h
  cases h1 : alGet cs.auction_cache aid with
  | none => rw [h1] at h; cases h
  | some v =>
    rw [h1] at h
    cases h2 : alGet cs.auction_cache_ttl aid with
    | none => rw [h2] at h; cases h
    | some exp =>
      rw [h2] at h
      dsimp only at h
      by_cases h3 : now < exp
      · rw [if_pos h3] at h
        exact h
      · rw [if_neg h3] at h
        cases h

theorem get_auction_cached_eq_hit (cs : CacheState) (db : DBState) (now aid : Nat)
    (a : AuctionRow) (h : cacheProbeAuction cs now aid = some a) :
    get_auction_cached cs db now aid = (some a, cs) := by
  unfold get_auction_cached
  rw [h]

theorem get_auction_cached_eq_miss_some (cs : CacheState) (db : DBState)
    (now aid : Nat) (a : AuctionRow) (hp : cacheProbeAuction cs now aid = none)
    (hdb : dbGetAuction db aid = some a) :
    get_auction_cached cs db now aid = (some a, cacheStoreAuction cs now aid a) := by
  unfold get_auction_cached
  rw [hp, hdb]

theorem cacheProbeAuction_after_store (cs : CacheState) (now aid : Nat) (a : AuctionRow) :
    cacheProbeAuction (cacheStoreAuction cs now aid a) now aid = some a := by
  unfold cacheProbeAuction
  show (match alGet (alSet cs.auction_cache aid a) aid,
      alGet (alSet cs.auction_cache_ttl aid (now + auction_ttl)) aid with
    | some v, some exp => if now < exp then some v else none
    | _, _ => none) = some a
  rw [alGet_alSet_same, alGet_alSet_same]
  dsimp only
  rw [if_pos (Nat.lt_add_of_pos_right (by decide : 0 < auction_ttl))]

theorem cacheProbeAuction_of_none (cs : CacheState) (now aid : Nat)
    (h : alGet cs.auction_cache aid = none) :
    cacheProbeAuction cs now aid = none := by
  unfold cacheProbeAuction
  rw [h]

theorem cacheProbeBids_of_none (cs : CacheState) (now aid : Nat)
    (h : alGet cs.bid_cache aid = none) :
    cacheProbeBids cs now aid = none := by
  unfold cacheProbeBids
  rw [h]

theorem get_auction_cached_cases (cs : CacheState) (db : DBState) (now aid : Nat)
    (a : AuctionRow) (c1 : CacheState)
    (h : get_auction_cached cs db now aid = (some a, c1)) :
    (cacheProbeAuction cs now aid = some a ∧ c1 = cs)
    ∨ (dbGetAuction db aid = some a ∧ c1 = cacheStoreAuction cs now aid a) := by
  unfold get_auction_cached at h
  cases hp : cacheProbeAuction cs now aid with
  | some v =>
    rw [hp] at h
    dsimp only at h
    injection h with h1 h2
    injection h1 with h1
    exact Or.inl ⟨by rw [h1], h2.symm⟩
  | none =>
    rw [hp] at h
    cases hdb : dbGetAuction db aid with
    | none => rw [hdb] at h; dsimp only at h; injection h with h1 _; cases h1
    | some b =>
      rw [hdb] at h
      dsimp only at h
      injection h with h1 h2
      injection h1 with h1
      exact Or.inr ⟨by rw [h1], by rw [← h1]; exact h2.symm⟩

/-! ## Claim C5 -/

/-- A close call that reads (from the cache) an auction that is not active
returns success and changes nothing. -/
theorem tm_end_auction_noop (s : SysState) (now aid : Nat) (a : AuctionRow)
    (hp : cacheProbeAuction s.cache now aid = some a)
    (hs : a.status ≠ Status.active) :
    tm_end_auction s now aid = (true, s) := by
  unfold tm_end_auction
  rw [get_auction_cached_eq_hit s.cache s.db now aid a hp]
  dsimp only
  rw [if_pos hs]

/-- A close call whose cache misses and whose store row is not active
returns success, changing only the cache (the read-through store). -/
theorem tm_end_auction_noop_of_db (s : SysState) (now aid : Nat) (a : AuctionRow)
    (hp : cacheProbeAuction s.cache now aid = none)
    (hdb : dbGetAuction s.db aid = some a)
    (hs : a.status ≠ Status.active) :
    tm_end_auction s now aid
      = (true, { s with cache := cacheStoreAuction s.cache now aid a }) := by
  unfold tm_end_auction
  rw [get_auction_cached_eq_miss_some s.cache s.db now aid a hp hdb]
  dsimp only
  rw [if_pos hs]

/-- C5: `end_auction` is idempotent.  After a first successful close, a
second sequential call is a success no-op: it returns `True` and leaves the
stored auction state exactly as the first call left it.  (The hypothesis
says a cached snapshot is backed by some store row — cache entries are only
ever copies of store reads, and auction rows are never deleted.) -/
theorem close_idempotent (s : SysState) (now aid : Nat) (s₁ : SysState)
    (hback : ∀ v, alGet s.cache.auction_cache aid = some v →
      (dbGetAuction s.db aid).isSome)
    (h1 : tm_end_auction s now aid = (true, s₁)) :
    ∃ s₂, tm_end_auction s₁ now aid = (true, s₂) ∧ s₂.db = s₁.db := by
  unfold tm_end_auction at h1
  cases hga : get_auction_cached s.cache s.db now aid with
  | mk o c1 =>
  rw [hga] at h1
  cases o with
  | none =>
    dsimp only at h1
    injection h1 with hb _
    cases hb
  | some a =>
    dsimp only at h1
    by_cases hs : a.status ≠ Status.active
    · rw [if_pos hs] at h1
      injection h1 with _ hstate
      subst hstate
      have hp1 : cacheProbeAuction c1 now aid = some a := by
        rcases get_auction_cached_cases s.cache s.db now aid a c1 hga with
          ⟨hp, hc⟩ | ⟨_, hc⟩
        · rw [hc]; exact hp
        · rw [hc]; exact cacheProbeAuction_after_store s.cache now aid a
      exact ⟨_, tm_end_auction_noop { s with cache := c1 } now aid a hp1 hs, rfl⟩
    · rw [if_neg hs] at h1
      injection h1 with _ hstate
      subst hstate
      have hrow : (dbGetAuction s.db aid).isSome := by
        rcases get_auction_cached_cases s.cache s.db now aid a c1 hga with
          ⟨hp, _⟩ | ⟨hdb, _⟩
        · exact hback a (cacheProbeAuction_some_inv s.cache now aid a hp)
        · rw [hdb]; rfl
      obtain ⟨row, hrowe⟩ := Option.isSome_iff_exists.mp hrow
      have hdb2 : ∀ w, dbGetAuction (db_end_auction s.db now aid w) aid
          = some { row with status := .ended, winner_id := w, last_updated := now } := by
        intro w
        unfold db_end_auction
        rw [dbGetAuction_update, if_pos rfl, hrowe]
        rfl
      have hpnone : ∀ X : CacheState,
          cacheProbeAuction (invalidate_auction_cache X aid) now aid = none :=
        fun X => cacheProbeAuction_of_none _ now aid (missAt_invalidate X aid).1
      refine ⟨_, tm_end_auction_noop_of_db _ now aid _ (hpnone _) (hdb2 _) ?_, rfl⟩
      intro h
      exact Status.noConfusion h

def rowI : AuctionRow :=
  ⟨10, 11, 2, "item", 100, 100, 10, "diamonds", 1000, .active, none, none, 0, 0⟩

def sI : SysState := ⟨⟨[(1, rowI)], []⟩, emptyCache, [(1, 995)]⟩

def rowIend : AuctionRow :=
  ⟨10, 11, 2, "item", 100, 100, 10, "diamonds", 1000, .ended, none, none, 0, 5⟩

def s1I : SysState := ⟨⟨[(1, rowIend)], []⟩, ⟨[], [], [], [], []⟩, []⟩

/-- C5 witness: a concrete close at time 5 ends the auction; the second
close is a success no-op on the stored state. -/
theorem close_idempotent_witness :
    (∀ v, alGet sI.cache.auction_cache 1 = some v → (dbGetAuction sI.db 1).isSome)
    ∧ tm_end_auction sI 5 1 = (true, s1I)
    ∧ ∃ s₂, tm_end_auction s1I 5 1 = (true, s₂) ∧ s₂.db = s1I.db := by
  have hback : ∀ v, alGet sI.cache.auction_cache 1 = some v →
      (dbGetAuction sI.db 1).isSome := by
    intro v hv
    simp [sI, emptyCache, alGet, List.find?] at hv
  have h1 : tm_end_auction sI 5 1 = (true, s1I) := rfl
  exact ⟨hback, h1, close_idempotent sI 5 1 s1I hback h1⟩

/-! ## Claim C6 -/

theorem head?_take {α : Type} (l : List α) (n : Nat) (hn : 0 < n) :
    (l.take n).head? = l.head? := by
  cases l with
  | nil => simp
  | cons a t =>
    cases n with
    | zero => exact absurd hn (lt_irrefl 0)
    | succ m => rfl

/-- The head of the `created_at DESC` sort is a maximal-timestamp element. -/
theorem sortedDesc_head_spec (L : List BidRow) (b : BidRow)
    (h : (L.insertionSort laterBid).head? = some b) :
    b ∈ L ∧ ∀ c ∈ L, c.created_at ≤ b.created_at := by
  have hperm := List.perm_insertionSort laterBid L
  have hsort := List.sorted_insertionSort laterBid L
  cases hS : L.insertionSort laterBid with
  | nil => rw [hS] at h; cases h
  | cons x t =>
    rw [hS] at h hperm hsort
    have hb : x = b := by injection h
    constructor
    · exact hb ▸ (hperm.mem_iff.mp (List.mem_cons_self x t))
    · intro c hc
      rcases List.mem_cons.mp (hperm.mem_iff.mpr hc) with he | ht
      · rw [he, ← hb]
      · rw [← hb]
        exact List.rel_of_sorted_cons hsort c ht

/-- The winner read of `end_auction` (`get_auction_bids_cached` with limit 1
on a bids-cache miss) returns none exactly when the auction has no bids, and
otherwise a bid of that auction with maximal timestamp. -/
theorem get_auction_bids_cached_winner_spec (cs : CacheState) (db : DBState)
    (now aid : Nat) (hmiss : alGet cs.bid_cache aid = none) :
    (db.bids.filter (fun b => b.auction_id == aid) = [] →
        (get_auction_bids_cached cs db now aid 1).1.head? = none)
    ∧ (∀ b, (get_auction_bids_cached cs db now aid 1).1.head? = some b →
        b ∈ db.bids.filter (fun b => b.auction_id == aid)
        ∧ ∀ c ∈ db.bids.filter (fun b => b.auction_id == aid),
            c.created_at ≤ b.created_at) := by
  unfold get_auction_bids_cached
  rw [cacheProbeBids_of_none cs now aid hmiss]
  dsimp only
  by_cases hemp : (dbGetAuctionBids db aid (max (1 * 3) 20)).isEmpty
  · rw [if_pos hemp]
    have hnil : ∀ b, (([] : List BidRow).head? = some b) → False := by
      intro b hb; cases hb
    exact ⟨fun _ => rfl, fun b hb => absurd hb (fun hb => hnil b hb)⟩
  · rw [if_neg hemp]
    have hhead : ((dbGetAuctionBids db aid (max (1 * 3) 20)).take 1).head?
        = ((db.bids.filter (fun b => b.auction_id == aid)).insertionSort laterBid).head? := by
      rw [head?_take _ 1 (by decide)]
      unfold dbGetAuctionBids
      rw [head?_take _ (max (1 * 3) 20) (by decide)]
    constructor
    · intro hL
      dsimp only
      rw [hhead, hL]
      rfl
    · intro b hb
      dsimp only at hb
      rw [hhead] at hb
      exact sortedDesc_head_spec _ b hb

/-- What a close call does on a cache miss over an active store row. -/
theorem tm_end_auction_close_eq (s : SysState) (now aid : Nat) (a : AuctionRow)
    (hp : cacheProbeAuction s.cache now aid = none)
    (hdb : dbGetAuction s.db aid = some a)
    (hact : a.status = Status.active) :
    tm_end_auction s now aid
      = (true,
          ⟨db_end_auction s.db now aid
              ((get_auction_bids_cached (cacheStoreAuction s.cache now aid a)
                  s.db now aid 1).1.head?.map (·.user_id)),
            invalidate_auction_cache
              ((get_auction_bids_cached (cacheStoreAuction s.cache now aid a)
                  s.db now aid 1).2) aid,
            alErase s.timers aid⟩) := by
  unfold tm_end_auction
  rw [get_auction_cached_eq_miss_some s.cache s.db now aid a hp hdb]
  dsimp only
  rw [if_neg (show ¬ a.status ≠ Status.active from fun h => h hact)]

/-- The cold-cache case of the close operation: when the cache holds no
snapshot and no bids entry for the auction, closing an active auction returns
`True`, atomically writes status = ended together with the winner — the
actor of the most recent bid, or none when there are no bids — refreshing
last-updated, leaves every other auction untouched, invalidates all three of
the auction's cache entry kinds and clears its timer handle. The cold-cache
hypotheses are load-bearing: see `close_trusts_stale_bids_cache` for what a
warm stale bids cache does to the winner. -/
theorem close_active_sets_winner
    (s : SysState) (now aid : Nat) (a : AuctionRow)
    (hca : alGet s.cache.auction_cache aid = none)
    (hcb : alGet s.cache.bid_cache aid = none)
    (hdb : dbGetAuction s.db aid = some a)
    (hact : a.status = Status.active) :
    ∃ s' w, tm_end_auction s now aid = (true, s')
      ∧ dbGetAuction s'.db aid
          = some { a with status := .ended, winner_id := w, last_updated := now }
      ∧ (s.db.bids.filter (fun b => b.auction_id == aid) = [] → w = none)
      ∧ (∀ u, w = some u → ∃ b ∈ s.db.bids.filter (fun b => b.auction_id == aid),
          b.user_id = u ∧ ∀ c ∈ s.db.bids.filter (fun b => b.auction_id == aid),
            c.created_at ≤ b.created_at)
      ∧ (∀ k, k ≠ aid → dbGetAuction s'.db k = dbGetAuction s.db k)
      ∧ alGet s'.cache.auction_cache aid = none
      ∧ alGet s'.cache.bid_cache aid = none
      ∧ alGet s'.cache.bid_counts aid = none
      ∧ alGet s'.timers aid = none := by
  have hp : cacheProbeAuction s.cache now aid = none :=
    cacheProbeAuction_of_none _ _ _ hca
  have hclose := tm_end_auction_close_eq s now aid a hp hdb hact
  have hcb1 : alGet (cacheStoreAuction s.cache now aid a).bid_cache aid = none := hcb
  obtain ⟨hw0, hwspec⟩ :=
    get_auction_bids_cached_winner_spec (cacheStoreAuction s.cache now aid a)
      s.db now aid hcb1
  have h2 : dbGetAuction (db_end_auction s.db now aid
      ((get_auction_bids_cached (cacheStoreAuction s.cache now aid a)
          s.db now aid 1).1.head?.map (·.user_id))) aid
      = some { a with status := .ended,
                      winner_id := (get_auction_bids_cached
                          (cacheStoreAuction s.cache now aid a)
                          s.db now aid 1).1.head?.map (·.user_id),
                      last_updated := now } := by
    unfold db_end_auction
    rw [dbGetAuction_update, if_pos rfl, hdb]
    rfl
  have h3 : s.db.bids.filter (fun b => b.auction_id == aid) = [] →
      ((get_auction_bids_cached (cacheStoreAuction s.cache now aid a)
          s.db now aid 1).1.head?.map (·.user_id)) = none := by
    intro hL
    rw [hw0 hL]
    rfl
  have h4 : ∀ u, ((get_auction_bids_cached (cacheStoreAuction s.cache now aid a)
        s.db now aid 1).1.head?.map (·.user_id)) = some u →
      ∃ b ∈ s.db.bids.filter (fun b => b.auction_id == aid),
        b.user_id = u ∧ ∀ c ∈ s.db.bids.filter (fun b => b.auction_id == aid),
          c.created_at ≤ b.created_at := by
    intro u hu
    obtain ⟨b, hb, hbu⟩ := Option.map_eq_some'.mp hu
    obtain ⟨hbmem, hbmax⟩ := hwspec b hb
    exact ⟨b, hbmem, hbu, hbmax⟩
  have h5 : ∀ k, k ≠ aid → dbGetAuction (db_end_auction s.db now aid
      ((get_auction_bids_cached (cacheStoreAuction s.cache now aid a)
          s.db now aid 1).1.head?.map (·.user_id))) k = dbGetAuction s.db k := by
    intro k hk
    unfold db_end_auction
    rw [dbGetAuction_update, if_neg hk]
  exact ⟨_, _, hclose, h2, h3, h4, h5,
    (missAt_invalidate _ aid).1,
    (missAt_invalidate _ aid).2.2.1,
    (missAt_invalidate _ aid).2.2.2.2,
    alGet_alErase_same s.timers aid⟩

def rowJ : AuctionRow :=
  ⟨10, 11, 2, "item", 100, 120, 10, "diamonds", 1000, .active, none, none, 2, 0⟩

def sJ : SysState :=
  ⟨⟨[(1, rowJ)], [⟨1, 4, 110, 10, false⟩, ⟨1, 5, 120, 20, false⟩]⟩,
    emptyCache, [(1, 995)]⟩

/-! ### Closing with an empty cache returns the cache to empty -/

theorem alErase_alSet_nil {α : Type} (k : Nat) (v : α) :
    alErase (alSet ([] : List (Nat × α)) k v) k = [] := by
  simp [alSet, alErase, List.filter]

theorem invalidate_storeA_empty (now aid : Nat) (a : AuctionRow) :
    invalidate_auction_cache (cacheStoreAuction emptyCache now aid a) aid
      = emptyCache := by
  unfold invalidate_auction_cache cacheStoreAuction emptyCache
  rw [show alErase (alSet ([] : List (Nat × AuctionRow)) aid a) aid = []
      from alErase_alSet_nil aid a,
    show alErase (alSet ([] : List (Nat × Nat)) aid (now + auction_ttl)) aid = []
      from alErase_alSet_nil aid _]
  rfl

theorem invalidate_storeB_empty (now now2 aid : Nat) (a : AuctionRow)
    (l : List BidRow) :
    invalidate_auction_cache
        (cacheStoreBids (cacheStoreAuction emptyCache now aid a) now2 aid l) aid
      = emptyCache := by
  unfold invalidate_auction_cache cacheStoreBids cacheStoreAuction emptyCache
  rw [show alErase (alSet ([] : List (Nat × AuctionRow)) aid a) aid = []
      from alErase_alSet_nil aid a,
    show alErase (alSet ([] : List (Nat × Nat)) aid (now + auction_ttl)) aid = []
      from alErase_alSet_nil aid _,
    show alErase (alSet ([] : List (Nat × List BidRow)) aid l) aid = []
      from alErase_alSet_nil aid l,
    show alErase (alSet ([] : List (Nat × Nat)) aid (now2 + bid_ttl)) aid = []
      from alErase_alSet_nil aid _]
  rfl

/-- Closing an active auction from an empty cache ends the row, leaves the
cache empty again, and erases the auction's timer. -/
theorem tm_end_close_empty (st : SysState) (now aid : Nat) (a : AuctionRow)
    (hc : st.cache = emptyCache) (hdb : dbGetAuction st.db aid = some a)
    (hact : a.status = Status.active) :
    ∃ w, (tm_end_auction st now aid).2
      = ⟨db_end_auction st.db now aid w, emptyCache, alErase st.timers aid⟩ := by
  have hp : cacheProbeAuction st.cache now aid = none := by
    rw [hc]
    exact cacheProbeAuction_of_none _ now aid rfl
  have hclose := tm_end_auction_close_eq st now aid a hp hdb hact
  refine ⟨(get_auction_bids_cached (cacheStoreAuction st.cache now aid a)
      st.db now aid 1).1.head?.map (·.user_id), ?_⟩
  rw [hclose]
  have hinv : invalidate_auction_cache
      ((get_auction_bids_cached (cacheStoreAuction st.cache now aid a)
          st.db now aid 1).2) aid = emptyCache := by
    rcases get_auction_bids_cached_snd (cacheStoreAuction st.cache now aid a)
        st.db now aid 1 with hc2 | ⟨l, hc2⟩
    · rw [hc2, hc]
      exact invalidate_storeA_empty now aid a
    · rw [hc2, hc]
      exact invalidate_storeB_empty now now aid a l
  rw [hinv]

/-! ### The expired-close phase of the recovery sweep -/

/-- Per-row effect of closing expired auctions: a row keeps its id and is
either untouched or marked ended. -/
def closedRel (p q : Nat × AuctionRow) : Prop :=
  p.1 = q.1 ∧ (q.2 = p.2 ∨ q.2.status = Status.ended)

theorem closedRel_refl (l : List (Nat × AuctionRow)) :
    List.Forall₂ closedRel l l :=
  List.forall₂_same.mpr (fun _ _ => ⟨rfl, Or.inl rfl⟩)

theorem closedRel_update (l : List (Nat × AuctionRow)) (aid : Nat)
    (w : Option Nat) (now : Nat) :
    List.Forall₂ closedRel l
      (l.map (fun p => if p.1 = aid then
        (p.1, { p.2 with status := Status.ended, winner_id := w,
                         last_updated := now }) else p)) := by
  rw [List.forall₂_map_right_iff]
  apply List.forall₂_same.mpr
  intro p _
  by_cases hp : p.1 = aid
  · rw [if_pos hp]
    exact ⟨rfl, Or.inr rfl⟩
  · rw [if_neg hp]
    exact ⟨rfl, Or.inl rfl⟩

theorem closedRel_trans {l₁ l₂ l₃ : List (Nat × AuctionRow)}
    (h1 : List.Forall₂ closedRel l₁ l₂) (h2 : List.Forall₂ closedRel l₂ l₃) :
    List.Forall₂ closedRel l₁ l₃ := by
  induction h1 generalizing l₃ with
  | nil =>
    cases h2
    exact List.Forall₂.nil
  | @cons p q t₁ t₂ hpq _ ih =>
    cases h2 with
    | @cons _ r _ t₃ hqr hrest2 =>
      refine List.Forall₂.cons ⟨hpq.1.trans hqr.1, ?_⟩ (ih hrest2)
      rcases hqr.2 with he | hs
      · rcases hpq.2 with he1 | hs1
        · exact Or.inl (he.trans he1)
        · exact Or.inr (by rw [he]; exact hs1)
      · exact Or.inr hs

theorem closedRel_keys_eq {l l' : List (Nat × AuctionRow)}
    (h : List.Forall₂ closedRel l l') : l.map (·.1) = l'.map (·.1) := by
  induction h with
  | nil => rfl
  | cons hpq _ ih =>
    rw [List.map_cons, List.map_cons, hpq.1, ih]

theorem forall₂_mem_right {α β : Type} {R : α → β → Prop} :
    ∀ {l : List α} {l' : List β}, List.Forall₂ R l l' →
    ∀ q ∈ l', ∃ p ∈ l, R p q := by
  intro l l' h
  induction h with
  | nil => intro q hq; cases hq
  | @cons a b t₁ t₂ hab _ ih =>
    intro q hq
    rcases List.mem_cons.mp hq with he | ht
    · exact ⟨a, List.mem_cons_self a t₁, he ▸ hab⟩
    · obtain ⟨p, hp, hr⟩ := ih q ht
      exact ⟨p, List.mem_cons_of_mem a hp, hr⟩

theorem forall₂_filter_length_le {α β : Type} {R : α → β → Prop}
    {f : β → Bool} {g : α → Bool} :
    ∀ {l : List α} {l' : List β}, List.Forall₂ R l l' →
    (∀ p q, p ∈ l → q ∈ l' → R p q → f q = true → g p = true) →
    (l'.filter f).length ≤ (l.filter g).length := by
  intro l l' h
  induction h with
  | nil =>
    intro _
    exact Nat.le_refl 0
  | @cons a b t₁ t₂ hab _ ih =>
    intro himp
    have hsub : ∀ p q, p ∈ t₁ → q ∈ t₂ → R p q → f q = true → g p = true :=
      fun p q hp hq => himp p q (List.mem_cons_of_mem a hp) (List.mem_cons_of_mem b hq)
    rw [List.filter_cons, List.filter_cons]
    by_cases hfb : f b = true
    · have hga : g a = true :=
        himp a b (List.mem_cons_self a t₁) (List.mem_cons_self b t₂) hab hfb
      rw [if_pos hfb, if_pos hga]
      simpa using Nat.succ_le_succ (ih hsub)
    · rw [if_neg hfb]
      by_cases hga : g a = true
      · rw [if_pos hga]
        exact Nat.le_trans (ih hsub) (by simp)
      · rw [if_neg hga]
        exact ih hsub

/-- Folding the expired-close over a key-distinct list of active rows ends
exactly those rows, keeps the cache empty and the timer table empty, and
leaves every other row untouched. -/
theorem phaseA_fold (now : Nat) :
    ∀ (E : List (Nat × AuctionRow)) (st : SysState),
    st.cache = emptyCache → st.timers = ([] : List (Nat × Nat)) →
    (E.map (·.1)).Nodup →
    (∀ p ∈ E, dbGetAuction st.db p.1 = some p.2 ∧ p.2.status = Status.active) →
    (E.foldl (fun x p => (tm_end_auction x now p.1).2) st).cache = emptyCache
    ∧ (E.foldl (fun x p => (tm_end_auction x now p.1).2) st).timers = []
    ∧ List.Forall₂ closedRel st.db.auctions
        (E.foldl (fun x p => (tm_end_auction x now p.1).2) st).db.auctions
    ∧ (∀ k, k ∉ E.map (·.1) →
        dbGetAuction (E.foldl (fun x p => (tm_end_auction x now p.1).2) st).db k
          = dbGetAuction st.db k)
    ∧ (∀ k, k ∈ E.map (·.1) →
        ∃ a', dbGetAuction (E.foldl (fun x p => (tm_end_auction x now p.1).2) st).db k
            = some a' ∧ a'.status = Status.ended) := by
  intro E
  induction E with
  | nil =>
    intro st hc ht _ _
    exact ⟨hc, ht, closedRel_refl _, fun _ _ => rfl,
      fun k hk => absurd hk (List.not_mem_nil k)⟩
  | cons p E ih =>
    intro st hc ht hnd hmem
    obtain ⟨hdbp, hactp⟩ := hmem p (List.mem_cons_self p E)
    obtain ⟨w, hstep⟩ := tm_end_close_empty st now p.1 p.2 hc hdbp hactp
    rw [List.foldl_cons]
    simp only [List.map_cons, List.nodup_cons] at hnd
    have hc1 : ((tm_end_auction st now p.1).2).cache = emptyCache := by
      rw [hstep]
    have ht1 : ((tm_end_auction st now p.1).2).timers = [] := by
      rw [hstep]
      show alErase st.timers p.1 = []
      rw [ht]
      rfl
    have hframe1 : ∀ k, k ≠ p.1 →
        dbGetAuction ((tm_end_auction st now p.1).2).db k = dbGetAuction st.db k := by
      intro k hk
      rw [hstep]
      show dbGetAuction (db_end_auction st.db now p.1 w) k = dbGetAuction st.db k
      unfold db_end_auction
      rw [dbGetAuction_update, if_neg hk]
    have hclosed1 : dbGetAuction ((tm_end_auction st now p.1).2).db p.1
        = some { p.2 with status := Status.ended, winner_id := w,
                          last_updated := now } := by
      rw [hstep]
      show dbGetAuction (db_end_auction st.db now p.1 w) p.1 = _
      unfold db_end_auction
      rw [dbGetAuction_update, if_pos rfl, hdbp]
      rfl
    have hmem1 : ∀ q ∈ E, dbGetAuction ((tm_end_auction st now p.1).2).db q.1
        = some q.2 ∧ q.2.status = Status.active := by
      intro q hq
      have hkne : q.1 ≠ p.1 := by
        intro he
        apply hnd.1
        have hm : q.1 ∈ E.map (·.1) := List.mem_map_of_mem (·.1) hq
        rwa [he] at hm
      exact ⟨by rw [hframe1 q.1 hkne]
                exact (hmem q (List.mem_cons_of_mem p hq)).1,
        (hmem q (List.mem_cons_of_mem p hq)).2⟩
    obtain ⟨ihc, iht, ihF, ihframe, ihend⟩ :=
      ih ((tm_end_auction st now p.1).2) hc1 ht1 hnd.2 hmem1
    refine ⟨ihc, iht, ?_, ?_, ?_⟩
    · have h01 : List.Forall₂ closedRel st.db.auctions
          ((tm_end_auction st now p.1).2).db.auctions := by
        rw [hstep]
        show List.Forall₂ closedRel st.db.auctions
          (db_end_auction st.db now p.1 w).auctions
        unfold db_end_auction dbUpdateAuction
        exact closedRel_update st.db.auctions p.1 w now
      exact closedRel_trans h01 ihF
    · intro k hk
      have hk' : k ≠ p.1 ∧ k ∉ E.map (·.1) := by
        simp only [List.map_cons, List.mem_cons, not_or] at hk
        exact hk
      rw [ihframe k hk'.2, hframe1 k hk'.1]
    · intro k hk
      simp only [List.map_cons, List.mem_cons] at hk
      rcases hk with he | hmemE
      · subst he
        refine ⟨{ p.2 with status := Status.ended, winner_id := w, last_updated := now }, ?_, rfl⟩
        rw [ihframe p.1 hnd.1, hclosed1]
      · exact ihend k hmemE

/-! ### Timer-table bookkeeping for the re-arming phase -/

/-- Number of timer entries held for a key. -/
def countKey {α : Type} (l : List (Nat × α)) (k : Nat) : Nat :=
  (l.filter (fun p => p.1 == k)).length

theorem filter_key_alErase_nil {α : Type} (l : List (Nat × α)) (k : Nat) :
    (alErase l k).filter (fun p => p.1 == k) = [] := by
  apply List.filter_eq_nil_iff.mpr
  intro p hp
  have := List.of_mem_filter hp
  simp only [bne_iff_ne, ne_eq] at this
  simp [this]

theorem keysNodup_alErase {α : Type} (l : List (Nat × α)) (k : Nat)
    (h : (l.map (·.1)).Nodup) : ((alErase l k).map (·.1)).Nodup :=
  h.sublist ((List.filter_sublist l).map (·.1))

theorem not_mem_keys_alErase {α : Type} (l : List (Nat × α)) (k : Nat) :
    k ∉ (alErase l k).map (·.1) := by
  intro hk
  obtain ⟨p, hp, hpk⟩ := List.mem_map.mp hk
  have := List.of_mem_filter hp
  simp only [bne_iff_ne, ne_eq] at this
  exact this hpk

theorem keysNodup_alSet {α : Type} (l : List (Nat × α)) (k : Nat) (v : α)
    (h : (l.map (·.1)).Nodup) : ((alSet l k v).map (·.1)).Nodup := by
  rw [alSet, List.map_cons]
  exact List.nodup_cons.mpr ⟨not_mem_keys_alErase l k, keysNodup_alErase l k h⟩

theorem countKey_eq_one_of_nodup {α : Type} (l : List (Nat × α)) (k : Nat)
    (v : α) (hnd : (l.map (·.1)).Nodup) (hget : alGet l k = some v) :
    countKey l k = 1 := by
  induction l with
  | nil => simp [alGet] at hget
  | cons p t ih =>
    simp only [List.map_cons, List.nodup_cons] at hnd
    rw [alGet_cons] at hget
    unfold countKey
    rw [List.filter_cons]
    by_cases hp : p.1 = k
    · rw [if_pos (by simp [hp])]
      have hnil : t.filter (fun q => q.1 == k) = [] := by
        apply List.filter_eq_nil_iff.mpr
        intro q hq
        have hqk : q.1 ≠ k := by
          intro he
          apply hnd.1
          have hm : q.1 ∈ t.map (·.1) := List.mem_map_of_mem (·.1) hq
          rwa [he, ← hp] at hm
        simp [hqk]
      rw [hnil]
      rfl
    · rw [if_neg (by simp [hp])]
      rw [if_neg hp] at hget
      exact ih hnd.2 hget

theorem schedule_future_eq (st : SysState) (now aid endt : Nat) (h : now < endt) :
    schedule_auction_end st now aid endt
      = { st with timers := alSet (alErase st.timers aid) aid (endt - now) } := by
  unfold schedule_auction_end
  rw [if_neg (not_le.mpr h)]
  dsimp only
  have hd : (if endt - now < 60 then max (endt - now) 1 else endt - now)
      = endt - now := by
    by_cases h60 : endt - now < 60
    · rw [if_pos h60]
      exact Nat.max_eq_left (by omega)
    · rw [if_neg h60]
  rw [hd]

/-- The inner loop of the re-arming phase over a list of future-ending rows:
it only touches the timer table, arms each listed auction with its remaining
delay, and leaves every other key's timer entry alone. -/
theorem innerB_fold (now : Nat) :
    ∀ (L : List (Nat × AuctionRow)) (st2 : SysState),
    (L.map (·.1)).Nodup →
    (∀ p ∈ L, now < p.2.ends_at) →
    ((st2.timers.map (·.1)).Nodup) →
    (L.foldl (recoverStep now) st2).db = st2.db
    ∧ (L.foldl (recoverStep now) st2).cache = st2.cache
    ∧ (((L.foldl (recoverStep now) st2).timers.map (·.1)).Nodup)
    ∧ (∀ p ∈ L, alGet (L.foldl (recoverStep now) st2).timers p.1
        = some (p.2.ends_at - now))
    ∧ (∀ k, k ∉ L.map (·.1) →
        alGet (L.foldl (recoverStep now) st2).timers k = alGet st2.timers k) := by
  intro L
  induction L with
  | nil =>
    intro st2 _ _ ht
    exact ⟨rfl, rfl, ht, fun p hp => absurd hp (List.not_mem_nil p),
      fun _ _ => rfl⟩
  | cons p L ih =>
    intro st2 hnd hfut htnd
    simp only [List.map_cons, List.nodup_cons] at hnd
    have hstep : recoverStep now st2 p
        = { st2 with timers := alSet (alErase st2.timers p.1) p.1 (p.2.ends_at - now) } := by
      unfold recoverStep
      rw [if_pos (hfut p (List.mem_cons_self p L))]
      exact schedule_future_eq st2 now p.1 p.2.ends_at (hfut p (List.mem_cons_self p L))
    rw [List.foldl_cons]
    have htnd3 : (((recoverStep now st2 p).timers.map (·.1)).Nodup) := by
      rw [hstep]
      exact keysNodup_alSet _ p.1 _ (keysNodup_alErase _ p.1 htnd)
    obtain ⟨ihdb, ihcache, ihnd, ihset, ihframe⟩ :=
      ih (recoverStep now st2 p) hnd.2 (fun q hq => hfut q (List.mem_cons_of_mem p hq))
        htnd3
    have hdb3 : (recoverStep now st2 p).db = st2.db := by rw [hstep]
    have hcache3 : (recoverStep now st2 p).cache = st2.cache := by rw [hstep]
    have hget3 : alGet (recoverStep now st2 p).timers p.1
        = some (p.2.ends_at - now) := by
      rw [hstep]
      exact alGet_alSet_same _ p.1 _
    have hframe3 : ∀ k, k ≠ p.1 →
        alGet (recoverStep now st2 p).timers k = alGet st2.timers k := by
      intro k hk
      rw [hstep]
      show alGet (alSet (alErase st2.timers p.1) p.1 (p.2.ends_at - now)) k
        = alGet st2.timers k
      rw [alGet_alSet_ne _ _ _ _ hk, alGet_alErase_ne _ _ _ hk]
    refine ⟨ihdb.trans hdb3, ihcache.trans hcache3, ihnd, ?_, ?_⟩
    · intro q hq
      rcases List.mem_cons.mp hq with he | hmemL
      · subst he
        rw [ihframe q.1 hnd.1, hget3]
      · exact ihset q hmemL
    · intro k hk
      have hk' : k ≠ p.1 ∧ k ∉ L.map (·.1) := by
        simp only [List.map_cons, List.mem_cons, not_or] at hk
        exact hk
      rw [ihframe k hk'.2, hframe3 k hk'.1]

/-- Membership facts for the rows fetched by `get_active_auctions`. -/
theorem mem_dbGetActiveAuctions (db : DBState) (g : Nat) (p : Nat × AuctionRow)
    (hp : p ∈ dbGetActiveAuctions db g) :
    p ∈ db.auctions ∧ p.2.guild_id = g ∧ p.2.status = Status.active := by
  unfold dbGetActiveAuctions at hp
  have h1 : p ∈ (db.auctions.filter
      (fun p => decide (p.2.guild_id = g ∧ p.2.status = Status.active))).insertionSort
        endsEarlier := List.take_subset 50 _ hp
  have h2 : p ∈ db.auctions.filter
      (fun p => decide (p.2.guild_id = g ∧ p.2.status = Status.active)) :=
    (List.perm_insertionSort endsEarlier _).mem_iff.mp h1
  have h3 := List.of_mem_filter h2
  exact ⟨List.mem_of_mem_filter h2, of_decide_eq_true h3⟩

theorem keysNodup_dbGetActiveAuctions (db : DBState) (g : Nat)
    (hnd : dbKeysNodup db) :
    ((dbGetActiveAuctions db g).map (·.1)).Nodup := by
  unfold dbGetActiveAuctions
  have hfilt : ((db.auctions.filter
      (fun p => decide (p.2.guild_id = g ∧ p.2.status = Status.active))).map (·.1)).Nodup :=
    hnd.sublist ((List.filter_sublist db.auctions).map (·.1))
  have hsort : (((db.auctions.filter
      (fun p => decide (p.2.guild_id = g ∧ p.2.status = Status.active))).insertionSort
        endsEarlier).map (·.1)).Nodup :=
    (((List.perm_insertionSort endsEarlier _).map (·.1)).nodup_iff).mpr hfilt
  refine hsort.sublist ?_
  exact (List.take_sublist 50 _).map _

/-- With at most 50 matching rows, the `LIMIT 50` fetch returns all of them
(as a permutation), so membership in the filter implies membership in the
fetched list. -/
theorem mem_dbGetActiveAuctions_of_le50 (db : DBState) (g : Nat)
    (p : Nat × AuctionRow)
    (hcount : (db.auctions.filter
      (fun p => decide (p.2.guild_id = g ∧ p.2.status = Status.active))).length ≤ 50)
    (hp : p ∈ db.auctions) (hg : p.2.guild_id = g) (ha : p.2.status = Status.active) :
    p ∈ dbGetActiveAuctions db g := by
  unfold dbGetActiveAuctions
  have hmemf : p ∈ db.auctions.filter
      (fun p => decide (p.2.guild_id = g ∧ p.2.status = Status.active)) :=
    List.mem_filter_of_mem hp (decide_eq_true ⟨hg, ha⟩)
  have hlen : ((db.auctions.filter
      (fun p => decide (p.2.guild_id = g ∧ p.2.status = Status.active))).insertionSort
        endsEarlier).length ≤ 50 := by
    rw [(List.perm_insertionSort endsEarlier _).length_eq]
    exact hcount
  rw [List.take_of_length_le hlen]
  exact (List.perm_insertionSort endsEarlier _).mem_iff.mpr hmemf

/-- The guild loop of the recovery sweep: it never touches the store, keeps
timer keys distinct, arms exactly the active auctions of the guilds it
visits with their remaining delay, and leaves other timer entries alone. -/
theorem phaseB_fold (now : Nat) (s1db : DBState) (hnd : dbKeysNodup s1db)
    (hfut : ∀ p ∈ s1db.auctions, p.2.status = Status.active → now < p.2.ends_at)
    (hcount : ∀ g, ((s1db.auctions.filter
      (fun p => decide (p.2.guild_id = g ∧ p.2.status = Status.active))).length ≤ 50)) :
    ∀ (gs : List Nat) (st : SysState), st.db = s1db → gs.Nodup →
    ((st.timers.map (·.1)).Nodup) →
    (gs.foldl (recoverGuildStep now) st).db = s1db
    ∧ (((gs.foldl (recoverGuildStep now) st).timers.map (·.1)).Nodup)
    ∧ (∀ aid a, dbGetAuction s1db aid = some a → a.status = Status.active →
        a.guild_id ∈ gs →
        alGet (gs.foldl (recoverGuildStep now) st).timers aid
          = some (a.ends_at - now))
    ∧ (∀ k, (∀ a, dbGetAuction s1db k = some a → a.status = Status.active →
          a.guild_id ∉ gs) →
        alGet (gs.foldl (recoverGuildStep now) st).timers k = alGet st.timers k) := by
  intro gs
  induction gs with
  | nil =>
    intro st hst _ htnd
    exact ⟨hst, htnd, fun aid a _ _ hg => absurd hg (List.not_mem_nil _),
      fun _ _ => rfl⟩
  | cons g gs ih =>
    intro st hst hgnd htnd
    have hgnd' := List.nodup_cons.mp hgnd
    have hL : dbGetActiveAuctions st.db g = dbGetActiveAuctions s1db g := by
      rw [hst]
    have hLnd : ((dbGetActiveAuctions st.db g).map (·.1)).Nodup := by
      rw [hL]
      exact keysNodup_dbGetActiveAuctions s1db g hnd
    have hLfut : ∀ p ∈ dbGetActiveAuctions st.db g, now < p.2.ends_at := by
      intro p hp
      rw [hL] at hp
      obtain ⟨hpm, _, hpa⟩ := mem_dbGetActiveAuctions s1db g p hp
      exact hfut p hpm hpa
    obtain ⟨idb, _, itnd, iset, iframe⟩ :=
      innerB_fold now (dbGetActiveAuctions st.db g) st hLnd hLfut htnd
    rw [List.foldl_cons]
    have hstg : (recoverGuildStep now st g).db = s1db := by
      show ((dbGetActiveAuctions st.db g).foldl (recoverStep now) st).db = s1db
      rw [idb, hst]
    obtain ⟨fdb, fnd, fset, fframe⟩ :=
      ih (recoverGuildStep now st g) hstg hgnd'.2 itnd
    refine ⟨fdb, fnd, ?_, ?_⟩
    · intro aid a hga hact hg
      rcases List.mem_cons.mp hg with he | hgs
      · -- this guild: armed by the inner loop, untouched by later guilds
        have hmemp : (aid, a) ∈ dbGetActiveAuctions st.db g := by
          rw [hL]
          exact mem_dbGetActiveAuctions_of_le50 s1db g (aid, a) (hcount g)
            (mem_of_alGet _ aid a hga) he hact
        have harm := iset (aid, a) hmemp
        have hkeep : ∀ a', dbGetAuction s1db aid = some a' →
            a'.status = Status.active → a'.guild_id ∉ gs := by
          intro a' hga' _
          rw [hga] at hga'
          injection hga' with ha'
          rw [← ha', he]
          exact hgnd'.1
        rw [fframe aid hkeep]
        exact harm
      · exact fset aid a hga hact hgs
    · intro k hk
      have hkgs : ∀ a, dbGetAuction s1db k = some a → a.status = Status.active →
          a.guild_id ∉ gs := by
        intro a hga hact
        have := hk a hga hact
        simp only [List.mem_cons, not_or] at this
        exact this.2
      have hknotL : k ∉ (dbGetActiveAuctions st.db g).map (·.1) := by
        intro hkm
        obtain ⟨p, hp, hpk⟩ := List.mem_map.mp hkm
        rw [hL] at hp
        obtain ⟨hpm, hpg, hpa⟩ := mem_dbGetActiveAuctions s1db g p hp
        have hlook : dbGetAuction s1db p.1 = some p.2 :=
          alGet_of_mem_nodup s1db.auctions hnd p hpm
        rw [hpk] at hlook
        have := hk p.2 hlook hpa
        simp only [List.mem_cons, not_or] at this
        exact this.1 hpg
      rw [fframe k hkgs]
      exact iframe k hknotL

/-- C7 (amended): the startup recovery sweep closes every expired active
auction, and arms exactly one timer with the remaining delay for every other
active auction — provided each guild holds at most 50 still-running auctions
(the per-guild fetch is `LIMIT 50`) and every running auction's guild is
among the guilds the process iterates. -/
theorem recovery_sweep_closes_and_rearms
    (s : SysState) (now : Nat) (guilds : List Nat)
    (hc : s.cache = emptyCache) (ht : s.timers = [])
    (hnd : dbKeysNodup s.db) (hgnd : guilds.Nodup)
    (hguild : ∀ p ∈ s.db.auctions, p.2.status = Status.active →
      now < p.2.ends_at → p.2.guild_id ∈ guilds)
    (hcount : ∀ g, ((s.db.auctions.filter (fun p =>
      decide (p.2.guild_id = g ∧ p.2.status = Status.active ∧
        now < p.2.ends_at))).length ≤ 50)) :
    ∀ aid a, dbGetAuction s.db aid = some a → a.status = Status.active →
      ((a.ends_at ≤ now →
          (∃ a', dbGetAuction (recover_active_auctions s now guilds).db aid = some a'
            ∧ a'.status = Status.ended)
          ∧ alGet (recover_active_auctions s now guilds).timers aid = none)
      ∧ (now < a.ends_at →
          dbGetAuction (recover_active_auctions s now guilds).db aid = some a
          ∧ alGet (recover_active_auctions s now guilds).timers aid
              = some (a.ends_at - now)
          ∧ countKey (recover_active_auctions s now guilds).timers aid = 1)) := by
  have hrec : recover_active_auctions s now guilds
      = guilds.foldl (recoverGuildStep now)
          ((dbGetExpiredAuctions s.db now).foldl
            (fun st p => (tm_end_auction st now p.1).2) s) := rfl
  have hEnd : ((dbGetExpiredAuctions s.db now).map (·.1)).Nodup := by
    unfold dbGetExpiredAuctions
    exact hnd.sublist ((List.filter_sublist s.db.auctions).map (·.1))
  have hEmem : ∀ p ∈ dbGetExpiredAuctions s.db now,
      dbGetAuction s.db p.1 = some p.2 ∧ p.2.status = Status.active := by
    intro p hp
    unfold dbGetExpiredAuctions at hp
    have h1 := List.mem_of_mem_filter hp
    have h2 := List.of_mem_filter hp
    simp only [decide_eq_true_eq] at h2
    exact ⟨alGet_of_mem_nodup s.db.auctions hnd p h1, h2.1⟩
  obtain ⟨pAc, pAt, pAF, pAframe, pAend⟩ :=
    phaseA_fold now (dbGetExpiredAuctions s.db now) s hc ht hEnd hEmem
  set s1 := (dbGetExpiredAuctions s.db now).foldl
    (fun st p => (tm_end_auction st now p.1).2) s with hs1
  have hkeys1 : s1.db.auctions.map (·.1) = s.db.auctions.map (·.1) :=
    (closedRel_keys_eq pAF).symm
  have hnd1 : dbKeysNodup s1.db := by
    unfold dbKeysNodup
    rw [hkeys1]
    exact hnd
  have hfut1 : ∀ p ∈ s1.db.auctions, p.2.status = Status.active →
      now < p.2.ends_at := by
    intro q hq hact
    obtain ⟨p, hpmem, hpq⟩ := forall₂_mem_right pAF q hq
    rcases hpq.2 with he | hs
    · by_contra hlt
      rw [not_lt] at hlt
      have hpe : p ∈ dbGetExpiredAuctions s.db now := by
        unfold dbGetExpiredAuctions
        refine List.mem_filter_of_mem hpmem (decide_eq_true ?_)
        constructor
        · rw [← he]; exact hact
        · rw [← he]; exact hlt
      have hkE : p.1 ∈ (dbGetExpiredAuctions s.db now).map (·.1) :=
        List.mem_map_of_mem (·.1) hpe
      obtain ⟨a', ha', hsa'⟩ := pAend p.1 hkE
      have hlq : dbGetAuction s1.db q.1 = some q.2 :=
        alGet_of_mem_nodup s1.db.auctions hnd1 q hq
      rw [hpq.1, hlq] at ha'
      injection ha' with hqa
      rw [← hqa, hact] at hsa'
      cases hsa'
    · rw [hact] at hs
      cases hs
  have hcount1 : ∀ g, ((s1.db.auctions.filter (fun p =>
      decide (p.2.guild_id = g ∧ p.2.status = Status.active))).length ≤ 50) := by
    intro g
    refine le_trans (forall₂_filter_length_le pAF ?_) (hcount g)
    intro p q hpm hqm hpq hq
    have hq' := of_decide_eq_true hq
    apply decide_eq_true
    rcases hpq.2 with he | hs
    · refine ⟨by rw [← he]; exact hq'.1, by rw [← he]; exact hq'.2, ?_⟩
      have := hfut1 q hqm hq'.2
      rw [← he]
      exact this
    · obtain ⟨_, ha2⟩ := hq'
      rw [hs] at ha2
      cases ha2
  obtain ⟨pBdb, pBnd, pBset, pBframe⟩ :=
    phaseB_fold now s1.db hnd1 hfut1 hcount1 guilds s1 rfl hgnd
      (by rw [pAt]; exact List.nodup_nil)
  intro aid a hga hact
  constructor
  · intro hle
    have hkE : aid ∈ (dbGetExpiredAuctions s.db now).map (·.1) := by
      unfold dbGetExpiredAuctions
      have hmf : (aid, a) ∈ s.db.auctions.filter (fun p =>
          decide (p.2.status = Status.active ∧ p.2.ends_at ≤ now)) :=
        List.mem_filter_of_mem (mem_of_alGet _ aid a hga) (decide_eq_true ⟨hact, hle⟩)
      exact List.mem_map_of_mem (·.1) hmf
    obtain ⟨a', ha', hsa'⟩ := pAend aid hkE
    have hcond : ∀ a'', dbGetAuction s1.db aid = some a'' →
        a''.status = Status.active → a''.guild_id ∉ guilds := by
      intro a'' h1 h2
      rw [ha'] at h1
      injection h1 with h1
      rw [← h1, hsa'] at h2
      cases h2
    constructor
    · refine ⟨a', ?_, hsa'⟩
      rw [hrec, pBdb]
      exact ha'
    · rw [hrec, pBframe aid hcond, pAt]
      rfl
  · intro hfuta
    have hkEn : aid ∉ (dbGetExpiredAuctions s.db now).map (·.1) := by
      intro hkE
      obtain ⟨p, hpE, hpk⟩ := List.mem_map.mp hkE
      unfold dbGetExpiredAuctions at hpE
      have h1 := List.mem_of_mem_filter hpE
      have h2 := List.of_mem_filter hpE
      simp only [decide_eq_true_eq] at h2
      have hl : dbGetAuction s.db p.1 = some p.2 :=
        alGet_of_mem_nodup _ hnd p h1
      rw [hpk, hga] at hl
      injection hl with hl
      rw [hl] at hfuta
      exact absurd h2.2 (not_le.mpr hfuta)
    have hga1 : dbGetAuction s1.db aid = some a := by
      rw [pAframe aid hkEn]
      exact hga
    have hgmem : a.guild_id ∈ guilds :=
      hguild (aid, a) (mem_of_alGet _ aid a hga) hact hfuta
    refine ⟨?_, ?_, ?_⟩
    · rw [hrec, pBdb]
      exact hga1
    · rw [hrec]
      exact pBset aid a hga1 hact hgmem
    · rw [hrec]
      exact countKey_eq_one_of_nodup _ aid _ pBnd (pBset aid a hga1 hact hgmem)

/-- Concrete cold-cache close: auction 1 has bids by users 4 (t=10) and 5
(t=20), and closing it instantiates the cold-cache close theorem. -/
theorem close_active_sets_winner_witness :
    alGet sJ.cache.auction_cache 1 = none
    ∧ alGet sJ.cache.bid_cache 1 = none
    ∧ dbGetAuction sJ.db 1 = some rowJ
    ∧ rowJ.status = Status.active
    ∧ ∃ s' w, tm_end_auction sJ 5 1 = (true, s')
      ∧ dbGetAuction s'.db 1
          = some { rowJ with status := .ended, winner_id := w, last_updated := 5 }
      ∧ (sJ.db.bids.filter (fun b => b.auction_id == 1) = [] → w = none)
      ∧ (∀ u, w = some u → ∃ b ∈ sJ.db.bids.filter (fun b => b.auction_id == 1),
          b.user_id = u ∧ ∀ c ∈ sJ.db.bids.filter (fun b => b.auction_id == 1),
            c.created_at ≤ b.created_at)
      ∧ (∀ k, k ≠ 1 → dbGetAuction s'.db k = dbGetAuction sJ.db k)
      ∧ alGet s'.cache.auction_cache 1 = none
      ∧ alGet s'.cache.bid_cache 1 = none
      ∧ alGet s'.cache.bid_counts 1 = none
      ∧ alGet s'.timers 1 = none :=
  ⟨rfl, rfl, rfl, rfl, close_active_sets_winner sJ 5 1 rowJ rfl rfl rfl rfl⟩

/-- An active auction whose store bids are user 4 at t = 10 and user 9 at
t = 20 (the most recent). -/
def rowW : AuctionRow :=
  ⟨1, 1, 2, "w", 100, 120, 10, "d", 30, .active, none, none, 2, 20⟩

def bidOld4 : BidRow := ⟨1, 4, 110, 10, false⟩

def bidNew9 : BidRow := ⟨1, 9, 120, 20, false⟩

/-- The state of the commit-to-invalidate window: user 9 committed the most
recent bid to the store at t = 20, but the bids cache still holds the
pre-commit list `[bidOld4]`, stored at t = 20 with the 10-second TTL
(expiry 30), and has not yet been invalidated. -/
def sW : SysState :=
  ⟨⟨[(1, rowW)], [bidOld4, bidNew9]⟩,
    ⟨[], [], [(1, [bidOld4])], [(1, 30)], []⟩, []⟩

/-- C6 (code bug): the close operation takes the winner from the 10-second
TTL bids cache without re-verifying against the durable store. In the
reachable window between a bid commit and the corresponding cache
invalidation the cached list is stale, and closing at t = 25 durably writes
winner = user 4 even though the most recent store bid belongs to user 9:
the claimed property — winner is the actor of the single most-recent bid —
fails for this active auction. -/
theorem close_trusts_stale_bids_cache :
    dbGetAuction sW.db 1 = some rowW
    ∧ rowW.status = Status.active
    ∧ (dbLastBid sW.db 1).map (·.user_id) = some 9
    ∧ cacheProbeBids sW.cache 25 1 = some [bidOld4]
    ∧ (tm_end_auction sW 25 1).1 = true
    ∧ dbGetAuction (tm_end_auction sW 25 1).2.db 1
        = some { rowW with status := .ended, winner_id := some 4, last_updated := 25 }
    ∧ (some 4 : Option Nat) ≠ some 9 :=
  ⟨rfl, rfl, rfl, rfl, rfl, rfl, by decide⟩

/-- Guild 1 holds 51 running auctions, ending at 100, 101, …, 150. -/
def rowK (i : Nat) : AuctionRow :=
  ⟨1, 1, 2, "item", 100, 100, 10, "mat", 100 + i, .active, none, none, 0, 0⟩

def sK : SysState :=
  ⟨⟨(List.range 51).map (fun i => (i, rowK i)), []⟩, emptyCache, []⟩

/-- C7 (counterexample): the per-guild fetch behind the recovery sweep is
capped at 50 rows (`get_active_auctions` ends in `LIMIT 50`), so on a store
where guild 1 holds 51 running auctions the sweep arms no timer at all for
the one with the farthest end time (id 50), refuting the claim that every
still-active auction gets exactly one timer. -/
theorem recovery_sweep_misses_timer_beyond_limit :
    (∀ p ∈ sK.db.auctions, p.2.status = Status.active ∧ 0 < p.2.ends_at
      ∧ p.2.guild_id ∈ [1])
    ∧ dbGetAuction sK.db 50 = some (rowK 50)
    ∧ alGet (recover_active_auctions sK 0 [1]).timers 50 = none
    ∧ countKey (recover_active_auctions sK 0 [1]).timers 50 = 0 := by
  refine ⟨by decide, rfl, rfl, rfl⟩

/-- Store for the C7 witness: auction 1 of guild 7 expired at t = 50,
auction 2 of guild 7 still runs until t = 100; recovery happens at t = 60. -/
def rowA7 : AuctionRow :=
  ⟨7, 1, 2, "a", 100, 100, 10, "d", 50, .active, none, none, 0, 0⟩

def rowB7 : AuctionRow :=
  ⟨7, 1, 2, "b", 100, 100, 10, "d", 100, .active, none, none, 0, 0⟩

def sAB : SysState := ⟨⟨[(1, rowA7), (2, rowB7)], []⟩, emptyCache, []⟩

/-- C7 witness: on the two-auction store the sweep at t = 60 closes the
expired auction 1 and arms exactly one timer for auction 2 with the
remaining 40 seconds. -/
theorem recovery_sweep_closes_and_rearms_witness :
    dbGetAuction sAB.db 1 = some rowA7 ∧ rowA7.status = Status.active
    ∧ rowA7.ends_at ≤ 60
    ∧ dbGetAuction sAB.db 2 = some rowB7 ∧ rowB7.status = Status.active
    ∧ 60 < rowB7.ends_at
    ∧ ((∃ a', dbGetAuction (recover_active_auctions sAB 60 [7]).db 1 = some a'
          ∧ a'.status = Status.ended)
        ∧ alGet (recover_active_auctions sAB 60 [7]).timers 1 = none)
    ∧ dbGetAuction (recover_active_auctions sAB 60 [7]).db 2 = some rowB7
    ∧ alGet (recover_active_auctions sAB 60 [7]).timers 2 = some (rowB7.ends_at - 60)
    ∧ countKey (recover_active_auctions sAB 60 [7]).timers 2 = 1 := by
  have H := recovery_sweep_closes_and_rearms sAB 60 [7] rfl rfl
    (by unfold dbKeysNodup; decide) (by decide) (by decide)
    (fun g => le_trans (List.length_filter_le _ _) (by decide))
  have H1 := H 1 rowA7 rfl rfl
  have H2 := H 2 rowB7 rfl rfl
  exact ⟨rfl, rfl, by decide, rfl, rfl, by decide,
    H1.1 (by decide),
    (H2.2 (by decide)).1, (H2.2 (by decide)).2.1, (H2.2 (by decide)).2.2⟩

end AuctionBot
